import Mathlib

/-!
# Ride-sharing dispatch core: embedding of `Project_Code.cpp`

The C++ program is embedded shallowly.

* The arithmetic of the program is written once, against the operations
  `+ - * ^ <`, the literals, `std::sqrt` (a parameter `sqrt : α → α`) and
  `std::numeric_limits<double>::max()` (a parameter `dblMax : α`), and is read
  at two types.  `F64` is IEEE-754 binary64: every operation rounds to nearest,
  ties to even, overflows to an infinity, underflows gradually, and propagates
  NaN; `std::pow(x, 2)` is taken as the rounded square and `std::sqrt` as
  correctly rounded.  A theorem stated for a linearly ordered field `α` reads
  `double` as exact arithmetic (no rounding, no NaN, no infinities) and says
  so where the difference matters.  `DBL_MAX` is the largest finite binary64
  value as a rational.
* `std::shared_ptr<Driver>` is an address `DriverPtr` into a heap of driver
  objects (`DriverHeap`); a possibly-null pointer is an `Option DriverPtr`.
  Pointer equality is address equality.
* `std::map<std::string, T>` is an association list kept in ascending key
  order (`mapInsert`), which is the order a range-for visits it in.
* `rand()` is a stream `rand : Nat → Nat` of the values successive calls
  return, with a counter `randCalls` of the calls made so far.
* Observer callbacks and the text written to `std::cout` by the dispatch loop
  are recorded as a list of `Output` events.
* The `while` loop of `RideManager::assignDriver` takes a fuel argument and
  returns `none` when the fuel runs out.
* The methods of `Ride` and of the managers take the ride by value and return
  it.  `System` adds the `Ride` objects, by address, and the members `rides`
  and `rideCounter` of `RideManager` (an `int`, taken without overflow);
  `System.step` runs one call of a client and writes the ride back.
-/

namespace RideSharing

/-! ## Enums -/

/-- Vehicle categories (`enum class VehicleType`). -/
inductive VehicleType
  | BIKE | SEDAN | SUV | AUTO_RICKSHAW
  deriving DecidableEq, Repr

/-- Ride lifecycle states (`enum class RideStatus`), in declaration order. -/
inductive RideStatus
  | REQUESTED | CONFIRMED | IN_PROGRESS | COMPLETED
  deriving DecidableEq, Repr

/-- Ride modes (`enum class RideType`). -/
inductive RideType
  | NORMAL | CARPOOL
  deriving DecidableEq, Repr

/-- Driver availability (`enum class DriverStatus`). -/
inductive DriverStatus
  | AVAILABLE | ON_TRIP
  deriving DecidableEq, Repr

/-- Underlying integer value of a `RideStatus` enumerator. -/
def RideStatus.rank : RideStatus → Nat
  | .REQUESTED => 0
  | .CONFIRMED => 1
  | .IN_PROGRESS => 2
  | .COMPLETED => 3

/-- Value of `std::numeric_limits<double>::max()` for IEEE-754 binary64. -/
def DBL_MAX : ℚ := (2 ^ 53 - 1) * 2 ^ 971

/-! ## Binary64 arithmetic -/

/-- The values of an IEEE-754 binary64 `double`: not-a-number, the two
infinities, and the finite values, as rationals.  The two zeros are one value
here: no operation of the program tells them apart. -/
inductive F64
  | nan
  | inf (negative : Bool)
  | fin (q : ℚ)
  deriving DecidableEq

/-- Rounding of a rational to an integer, a tie going to the even one. -/
def roundHalfEven (n : ℚ) : ℤ :=
  if n - ⌊n⌋ < 1 / 2 then ⌊n⌋
  else if 1 / 2 < n - ⌊n⌋ then ⌊n⌋ + 1
  else if ⌊n⌋ % 2 = 0 then ⌊n⌋ else ⌊n⌋ + 1

/-- Exponent of the spacing of the binary64 values at the magnitude `a`: 52
below the binade of `a`, and -1074 throughout the subnormal range. -/
def F64.ulpExp (a : ℚ) : ℤ :=
  max (Int.log 2 a) (-1022) - 52

/-- Rounding to nearest, ties to even: the binary64 value nearest to the
rational `q`, which is an infinity from `2 ^ 1024 - 2 ^ 970` on. -/
def F64.ofRat (q : ℚ) : F64 :=
  if 2 ^ 1024 - 2 ^ 970 ≤ |q| then F64.inf (decide (q < 0))
  else F64.fin (roundHalfEven (q / 2 ^ F64.ulpExp |q|) * 2 ^ F64.ulpExp |q|)

/-- Negation of a `double`. -/
def F64.neg : F64 → F64
  | .nan => .nan
  | .inf s => .inf (!s)
  | .fin q => .fin (-q)

/-- Addition of two `double`s: the exact sum, rounded. -/
def F64.add : F64 → F64 → F64
  | .nan, _ => .nan
  | _, .nan => .nan
  | .inf s, .inf t => if s = t then .inf s else .nan
  | .inf s, .fin _ => .inf s
  | .fin _, .inf t => .inf t
  | .fin a, .fin b => F64.ofRat (a + b)

/-- Subtraction of two `double`s. -/
def F64.sub (a b : F64) : F64 :=
  F64.add a (F64.neg b)

/-- Multiplication of two `double`s: the exact product, rounded. -/
def F64.mul : F64 → F64 → F64
  | .nan, _ => .nan
  | _, .nan => .nan
  | .inf s, .inf t => .inf (xor s t)
  | .inf s, .fin b => if b = 0 then .nan else .inf (xor s (decide (b < 0)))
  | .fin a, .inf t => if a = 0 then .nan else .inf (xor (decide (a < 0)) t)
  | .fin a, .fin b => F64.ofRat (a * b)

/-- Function `std::pow` at a natural exponent, by repeated multiplication; at
the exponent 2, the only one the program uses, it is the rounded square. -/
def F64.npow (x : F64) : ℕ → F64
  | 0 => .fin 1
  | 1 => x
  | n + 2 => F64.mul (F64.npow x (n + 1)) x

/-- The binary64 value nearest to the square root of a rational `q > 0`:
`s` counts the spacings `u` below the root, and the root is compared with the
midpoint between `s * u` and `(s + 1) * u`. -/
def F64.sqrtFinite (q : ℚ) : ℚ :=
  let u : ℚ := 2 ^ (Int.log 2 q / 2 - 52)
  let s : ℤ := Int.sqrt ⌊q / u ^ 2⌋
  let mid : ℚ := (s + 1 / 2) * u
  if q < mid ^ 2 then s * u
  else if mid ^ 2 < q then (s + 1) * u
  else if s % 2 = 0 then s * u else (s + 1) * u

/-- Function `std::sqrt` on `double`s, correctly rounded. -/
def F64.sqrt : F64 → F64
  | .nan => .nan
  | .inf true => .nan
  | .inf false => .inf false
  | .fin q => if q < 0 then .nan else if q = 0 then .fin 0 else .fin (F64.sqrtFinite q)

/-- Comparison `<` of two `double`s; it is false as soon as one is not a
number. -/
def F64.lt : F64 → F64 → Bool
  | .fin a, .fin b => decide (a < b)
  | .inf true, .fin _ => true
  | .inf true, .inf false => true
  | .fin _, .inf false => true
  | _, _ => false

instance : LT F64 := ⟨fun a b => F64.lt a b = true⟩

instance : DecidableRel (fun a b : F64 => a < b) :=
  fun a b => inferInstanceAs (Decidable (F64.lt a b = true))

instance : Add F64 := ⟨F64.add⟩

instance : Sub F64 := ⟨F64.sub⟩

instance : Mul F64 := ⟨F64.mul⟩

instance : Pow F64 ℕ := ⟨F64.npow⟩

/-- Function `std::max` on `double`s: `(a < b) ? b : a`. -/
instance : Max F64 := ⟨fun a b => if a < b then b else a⟩

/-- A decimal literal without fraction is the `double` nearest to it. -/
instance (n : ℕ) : OfNat F64 n := ⟨F64.ofRat n⟩

/-- A decimal literal with a fraction is the `double` nearest to it. -/
instance : OfScientific F64 :=
  ⟨fun m s e => F64.ofRat (OfScientific.ofScientific m s e)⟩

/-- Value `std::numeric_limits<double>::max()` as a `double`. -/
def F64.maxFinite : F64 :=
  F64.fin DBL_MAX

/-! ## Location, users -/

/-- Class `Location`: a point of the plane. -/
structure Location (α : Type) where
  x : α
  y : α
  deriving DecidableEq

/-- Method `Location::distanceTo`:
`std::sqrt(std::pow(x - other.x, 2) + std::pow(y - other.y, 2))`. -/
def Location.distanceTo {α : Type} [Sub α] [Add α] [Pow α ℕ] (sqrt : α → α)
    (self other : Location α) : α :=
  sqrt ((self.x - other.x) ^ 2 + (self.y - other.y) ^ 2)

/-- Class `Rider` (with the fields inherited from `User`). -/
structure Rider (α : Type) where
  id : String
  name : String
  phone : String
  location : Location α
  deriving DecidableEq

/-- Class `Driver` (with the fields inherited from `User`). -/
structure Driver (α : Type) where
  id : String
  name : String
  phone : String
  vehicleType : VehicleType
  licensePlate : String
  location : Location α
  status : DriverStatus
  rating : α
  deriving DecidableEq

/-- Constructor of `Driver`: a new driver starts out `AVAILABLE`. -/
def Driver.create {α : Type} (id name phone : String) (vType : VehicleType)
    (plate : String) (loc : Location α) (rating : α) : Driver α :=
  { id := id, name := name, phone := phone, vehicleType := vType,
    licensePlate := plate, location := loc, status := .AVAILABLE, rating := rating }

/-- Method `Driver::isAvailable`. -/
def Driver.isAvailable {α : Type} (d : Driver α) : Bool :=
  d.status == .AVAILABLE

/-- Method `Driver::setStatus`. -/
def Driver.setStatus {α : Type} (d : Driver α) (s : DriverStatus) : Driver α :=
  { d with status := s }

/-- Address of a heap-allocated `Driver` (a non-null `shared_ptr<Driver>`). -/
abbrev DriverPtr := Nat

/-- The driver objects, by address. -/
abbrev DriverHeap (α : Type) := DriverPtr → Driver α

/-! ## Booking details, observers, rides -/

/-- Struct `BookingDetails`. -/
structure BookingDetails (α : Type) where
  pickup : Location α
  dropoff : Location α
  vehicleType : VehicleType
  rideType : RideType
  deriving DecidableEq

/-- The implementations of the `RideObserver` interface: the two classes of the
program, and caller-supplied ones told apart by a tag. -/
inductive RideObserver
  | RiderNotifier
  | DriverNotifier
  | other (tag : Nat)
  deriving DecidableEq, Repr

/-- Class `Notifier`: the attached observers, in attachment order. -/
structure Notifier where
  observers : List RideObserver
  deriving DecidableEq

/-- Method `Notifier::attach`: `observers.push_back(observer)`. -/
def Notifier.attach (n : Notifier) (observer : RideObserver) : Notifier :=
  { observers := n.observers ++ [observer] }

/-- Class `Ride`. -/
structure Ride (α : Type) where
  id : String
  rider : Option (Rider α)
  driver : Option DriverPtr
  details : BookingDetails α
  status : RideStatus
  fare : α
  notifier : Notifier
  deriving DecidableEq

/-- What the program does that is visible from outside: a call of
`obs->update(ride)` with the ride as it is at that moment, or the line
"Driver ... rejected the ride" of the dispatch loop. -/
inductive Output (α : Type)
  | update (obs : RideObserver) (ride : Ride α)
  | rejected (driverId : String)
  deriving DecidableEq

/-- Method `Notifier::notify`: calls `update(ride)` on every observer in order. -/
def Notifier.notify {α : Type} (n : Notifier) (ride : Ride α) : List (Output α) :=
  n.observers.map (fun obs => Output.update obs ride)

/-- Constructor of `Ride`: no driver, `REQUESTED`, fare `0.0`, no observers. -/
def Ride.create {α : Type} [OfNat α 0] (id : String) (rider : Option (Rider α))
    (details : BookingDetails α) : Ride α :=
  { id := id, rider := rider, driver := none, details := details,
    status := .REQUESTED, fare := 0, notifier := { observers := [] } }

/-- Method `Ride::assignDriver`. -/
def Ride.assignDriver {α : Type} (ride : Ride α) (drv : Option DriverPtr) :
    Ride α × List (Output α) :=
  let ride1 := { ride with driver := drv, status := RideStatus.CONFIRMED }
  (ride1, ride1.notifier.notify ride1)

/-- Method `Ride::startRide`. -/
def Ride.startRide {α : Type} (ride : Ride α) : Ride α × List (Output α) :=
  let ride1 := { ride with status := RideStatus.IN_PROGRESS }
  (ride1, ride1.notifier.notify ride1)

/-- Method `Ride::completeRide`. -/
def Ride.completeRide {α : Type} (ride : Ride α) (fareAmount : α) :
    Ride α × List (Output α) :=
  let ride1 := { ride with status := RideStatus.COMPLETED, fare := fareAmount }
  (ride1, ride1.notifier.notify ride1)

/-- Method `Ride::attachObserver`. -/
def Ride.attachObserver {α : Type} (ride : Ride α) (observer : RideObserver) : Ride α :=
  { ride with notifier := ride.notifier.attach observer }

/-- The three mutating lifecycle methods of `Ride`, with their arguments. -/
inductive RideOp (α : Type)
  | assignDriver (drv : Option DriverPtr)
  | startRide
  | completeRide (fareAmount : α)

/-- Runs one lifecycle method on a ride. -/
def RideOp.apply {α : Type} (op : RideOp α) (ride : Ride α) : Ride α :=
  match op with
  | .assignDriver drv => (ride.assignDriver drv).1
  | .startRide => ride.startRide.1
  | .completeRide fareAmount => (ride.completeRide fareAmount).1

/-- The status a lifecycle method writes. -/
def RideOp.target {α : Type} : RideOp α → RideStatus
  | .assignDriver _ => .CONFIRMED
  | .startRide => .IN_PROGRESS
  | .completeRide _ => .COMPLETED

/-- The rides seen while running a sequence of lifecycle methods: the ride
before the first call and the ride after each call. -/
def rideTrace {α : Type} : Ride α → List (RideOp α) → List (Ride α)
  | ride, [] => [ride]
  | ride, op :: ops => ride :: rideTrace (op.apply ride) ops

/-! ## Matching strategies -/

/-- Interface `DriverMatchingStrategy`: method `matchDriver`, reading the
driver objects its candidate pointers refer to. -/
abbrev DriverMatchingStrategy (α : Type) :=
  DriverHeap α → Location α → List DriverPtr → Option DriverPtr

/-- Method `NearestDriverStrategy::matchDriver`: the loop state is
`(nearest, minDist)`, starting at `(nullptr, max double)`. -/
def NearestDriverStrategy.matchDriver {α : Type} [Sub α] [Add α] [Pow α ℕ] [LT α]
    [DecidableRel (fun a b : α => a < b)]
    (sqrt : α → α) (dblMax : α) : DriverMatchingStrategy α :=
  fun heap pickup drivers =>
    (drivers.foldl
      (fun (acc : Option DriverPtr × α) driver =>
        let dist := pickup.distanceTo sqrt (heap driver).location
        if dist < acc.2 then (some driver, dist) else acc)
      (none, dblMax)).1

/-- Method `BestRatingDriverStrategy::matchDriver`: the loop state is
`(best, maxRating)`, starting at `(nullptr, 0.0)`. -/
def BestRatingDriverStrategy.matchDriver {α : Type} [OfNat α 0] [LT α]
    [DecidableRel (fun a b : α => a < b)] :
    DriverMatchingStrategy α :=
  fun heap _pickup drivers =>
    (drivers.foldl
      (fun (acc : Option DriverPtr × α) driver =>
        if (heap driver).rating > acc.2 then (some driver, (heap driver).rating) else acc)
      (none, 0)).1

/-! ## Fare calculation -/

/-- Method `BaseFareCalculator::calculateFare`. -/
def BaseFareCalculator.calculateFare {α : Type} [Sub α] [Add α] [Mul α] [Pow α ℕ]
    [OfNat α 30] [OfNat α 10] [OfNat α 40] [OfScientific α] (sqrt : α → α)
    (ride : Ride α) : α :=
  let details := ride.details
  let rates : α × α :=
    if details.rideType = RideType.CARPOOL then (30, 10) else (40, 12.5)
  let dist := details.pickup.distanceTo sqrt details.dropoff
  rates.1 + dist * rates.2

/-- The `FareCalculator` class hierarchy: the base calculator and the two
decorators around a component. -/
inductive FareCalculator (α : Type)
  | base
  | surge (component : FareCalculator α) (multiplier : α)
  | discount (component : FareCalculator α) (discount : α)

/-- Method `SurgePricingDecorator::calculateFare`; `component` is the
`calculateFare` method of the wrapped calculator. -/
def SurgePricingDecorator.calculateFare {α : Type} [Mul α]
    (component : Ride α → α) (multiplier : α) (ride : Ride α) : α :=
  multiplier * component ride

/-- Method `DiscountDecorator::calculateFare`; `component` is the
`calculateFare` method of the wrapped calculator. -/
def DiscountDecorator.calculateFare {α : Type} [Sub α] [Max α] [OfNat α 0]
    (component : Ride α → α) (discount : α) (ride : Ride α) : α :=
  max 0 (component ride - discount)

/-- Virtual method `FareCalculator::calculateFare`. -/
def FareCalculator.calculateFare {α : Type} [Sub α] [Add α] [Mul α] [Pow α ℕ] [Max α]
    [OfNat α 0] [OfNat α 30] [OfNat α 10] [OfNat α 40] [OfScientific α] (sqrt : α → α) :
    FareCalculator α → Ride α → α
  | .base, ride => BaseFareCalculator.calculateFare sqrt ride
  | .surge comp mult, ride =>
    SurgePricingDecorator.calculateFare (comp.calculateFare sqrt) mult ride
  | .discount comp disc, ride =>
    DiscountDecorator.calculateFare (comp.calculateFare sqrt) disc ride

/-- The pipelines whose surge decorators all have a factor above 0. -/
def FareCalculator.SurgesPositive {α : Type} [LinearOrderedField α] :
    FareCalculator α → Prop
  | .base => True
  | .surge comp mult => 0 < mult ∧ comp.SurgesPositive
  | .discount comp _ => comp.SurgesPositive

/-! ## Managers -/

/-- Assignment `m[k] = v` on a `std::map` held as a key-ordered list. -/
def mapInsert {β : Type} (k : String) (v : β) : List (String × β) → List (String × β)
  | [] => [(k, v)]
  | (k1, v1) :: rest =>
    if k < k1 then (k, v) :: (k1, v1) :: rest
    else if k = k1 then (k, v) :: rest
    else (k1, v1) :: mapInsert k v rest

/-- Lookup `m.find(k)` on a `std::map` held as a key-ordered list. -/
def mapFind {β : Type} (k : String) : List (String × β) → Option β
  | [] => none
  | (k1, v1) :: rest => if k = k1 then some v1 else mapFind k rest

/-- The state of the process: the driver objects, the singletons
`RiderManager` (`riders`), `DriverManager` (`drivers`) and `RideManager`
(`matchingStrategy`), the random source and the output made so far. -/
structure World (α : Type) where
  heap : DriverHeap α
  riders : List (String × Rider α)
  drivers : List (String × DriverPtr)
  matchingStrategy : DriverMatchingStrategy α
  rand : Nat → Nat
  randCalls : Nat
  out : List (Output α)

/-- Method `RiderManager::addRider`. -/
def RiderManager.addRider {α : Type} (w : World α) (rider : Rider α) : World α :=
  { w with riders := mapInsert rider.id rider w.riders }

/-- Method `RiderManager::getRider`. -/
def RiderManager.getRider {α : Type} (w : World α) (id : String) : Option (Rider α) :=
  mapFind id w.riders

/-- Method `DriverManager::addDriver`. -/
def DriverManager.addDriver {α : Type} (w : World α) (driver : DriverPtr) : World α :=
  { w with drivers := mapInsert (w.heap driver).id driver w.drivers }

/-- Method `DriverManager::getAvailableDrivers`. -/
def DriverManager.getAvailableDrivers {α : Type} (w : World α) (type : VehicleType) :
    List DriverPtr :=
  (w.drivers.filter
    (fun e => (w.heap e.2).isAvailable && decide ((w.heap e.2).vehicleType = type))).map
    (fun e => e.2)

/-- Method `DriverManager::getDriver`. -/
def DriverManager.getDriver {α : Type} (w : World α) (id : String) : Option DriverPtr :=
  mapFind id w.drivers

/-- Method `RideManager::setMatchingStrategy`. -/
def RideManager.setMatchingStrategy {α : Type} (w : World α)
    (strategy : DriverMatchingStrategy α) : World α :=
  { w with matchingStrategy := strategy }

/-- The `while` loop of `RideManager::assignDriver`, one iteration per unit of
fuel.  The result is the returned flag, the new state and the ride. -/
def RideManager.assignLoop {α : Type} :
    Nat → World α → Ride α → List DriverPtr → Option (Bool × World α × Ride α)
  | 0, _, _, _ => none
  | fuel + 1, w, ride, availableDrivers =>
    if availableDrivers.isEmpty then some (false, w, ride)
    else
      match w.matchingStrategy w.heap ride.details.pickup availableDrivers with
      | none => some (false, w, ride)
      | some matchedDriver =>
        let w1 := { w with randCalls := w.randCalls + 1 }
        if w.rand w.randCalls % 100 < 60 then
          let assigned := ride.assignDriver (some matchedDriver)
          let w2 := { w1 with out := w1.out ++ assigned.2 }
          let onTrip := (w2.heap matchedDriver).setStatus DriverStatus.ON_TRIP
          some (true, { w2 with heap := Function.update w2.heap matchedDriver onTrip },
            assigned.1)
        else
          RideManager.assignLoop fuel
            { w1 with out := w1.out ++ [Output.rejected (w1.heap matchedDriver).id] }
            ride (availableDrivers.filter (fun d => d != matchedDriver))

/-- Method `RideManager::assignDriver`. -/
def RideManager.assignDriver {α : Type} (fuel : Nat) (w : World α) (ride : Ride α) :
    Option (Bool × World α × Ride α) :=
  RideManager.assignLoop fuel w ride
    (DriverManager.getAvailableDrivers w ride.details.vehicleType)

/-- Method `RideManager::startRide`. -/
def RideManager.startRide {α : Type} (w : World α) (ride : Ride α) : World α × Ride α :=
  let started := ride.startRide
  ({ w with out := w.out ++ started.2 }, started.1)

/-- Method `RideManager::completeRide`; `fareCalculator` is the `calculateFare`
method of the calculator passed in. -/
def RideManager.completeRide {α : Type} (w : World α) (ride : Ride α)
    (fareCalculator : Ride α → α) : World α × Ride α :=
  let fare := fareCalculator ride
  let completed := ride.completeRide fare
  let w1 := { w with out := w.out ++ completed.2 }
  match completed.1.driver with
  | some driver =>
    let released := (w1.heap driver).setStatus DriverStatus.AVAILABLE
    ({ w1 with heap := Function.update w1.heap driver released }, completed.1)
  | none => (w1, completed.1)

/-- The contract of a matching strategy that the dispatch loop relies on: a
driver it returns is one of the candidates it was given. -/
def SelectsFromPool {α : Type} (strategy : DriverMatchingStrategy α) : Prop :=
  ∀ heap pickup candidates p, strategy heap pickup candidates = some p → p ∈ candidates

/-! ## The process as a whole -/

/-- The whole process: the state of the managers and of the driver objects,
the `Ride` objects made so far (the address of a ride is its position in
`rideObjs`), and the members `rides` and `rideCounter` of `RideManager`. -/
structure System (α : Type) where
  world : World α
  rideObjs : List (Ride α)
  rides : List (String × Nat)
  rideCounter : Nat

/-- What `main` starts from: empty registries, no ride, and the strategy the
constructor of `RideManager` installs (the nearest-driver strategy in the
program). -/
def System.init {α : Type} (heap : DriverHeap α) (strategy : DriverMatchingStrategy α)
    (rand : Nat → Nat) : System α :=
  { world :=
      { heap := heap, riders := [], drivers := [], matchingStrategy := strategy,
        rand := rand, randCalls := 0, out := [] }
    rideObjs := []
    rides := []
    rideCounter := 0 }

/-- Method `RideManager::createRide`; the result is the new state and the
address of the new ride. -/
def RideManager.createRide {α : Type} [LinearOrderedField α] (s : System α)
    (rider : Option (Rider α)) (details : BookingDetails α) : System α × Nat :=
  let rideCounter := s.rideCounter + 1
  let rideId := "RIDE_" ++ toString rideCounter
  let ride := ((Ride.create rideId rider details).attachObserver
    RideObserver.RiderNotifier).attachObserver RideObserver.DriverNotifier
  let addr := s.rideObjs.length
  ({ s with
      rideObjs := s.rideObjs ++ [ride],
      rides := mapInsert rideId addr s.rides,
      rideCounter := rideCounter }, addr)

/-- The calls a client makes on the managers; rides are named by address, and
`assignDriver` comes with the fuel for its loop. -/
inductive SystemOp (α : Type)
  | addDriver (driver : DriverPtr)
  | createRide (rider : Option (Rider α)) (details : BookingDetails α)
  | assignDriver (ride : Nat) (fuel : Nat)
  | startRide (ride : Nat)
  | completeRide (ride : Nat) (fareCalculator : Ride α → α)

/-- One call on the managers, the ride written back to its address.  There is
no next state when the address is of no ride or the fuel runs out. -/
def System.step {α : Type} [LinearOrderedField α] (s : System α) :
    SystemOp α → Option (System α)
  | .addDriver driver => some { s with world := DriverManager.addDriver s.world driver }
  | .createRide rider details => some (RideManager.createRide s rider details).1
  | .assignDriver r fuel =>
    match s.rideObjs[r]? with
    | none => none
    | some ride =>
      match RideManager.assignDriver fuel s.world ride with
      | none => none
      | some res => some { s with world := res.2.1, rideObjs := s.rideObjs.set r res.2.2 }
  | .startRide r =>
    match s.rideObjs[r]? with
    | none => none
    | some ride =>
      let res := RideManager.startRide s.world ride
      some { s with world := res.1, rideObjs := s.rideObjs.set r res.2 }
  | .completeRide r fareCalculator =>
    match s.rideObjs[r]? with
    | none => none
    | some ride =>
      let res := RideManager.completeRide s.world ride fareCalculator
      some { s with world := res.1, rideObjs := s.rideObjs.set r res.2 }

/-- A sequence of calls on the managers, one after the other. -/
def System.run {α : Type} [LinearOrderedField α] (s : System α) :
    List (SystemOp α) → Option (System α)
  | [] => some s
  | op :: ops =>
    match s.step op with
    | none => none
    | some s1 => s1.run ops

/-- A call that comes in lifecycle order: `assignDriver` on a `REQUESTED` ride,
`startRide` on a `CONFIRMED` one, `completeRide` on an `IN_PROGRESS` one. -/
def SystemOp.inSequence {α : Type} (s : System α) : SystemOp α → Prop
  | .addDriver _ => True
  | .createRide _ _ => True
  | .assignDriver r _ => (s.rideObjs[r]?).map Ride.status = some RideStatus.REQUESTED
  | .startRide r => (s.rideObjs[r]?).map Ride.status = some RideStatus.CONFIRMED
  | .completeRide r _ => (s.rideObjs[r]?).map Ride.status = some RideStatus.IN_PROGRESS

/-- A sequence of calls each of which comes in lifecycle order in the state it
is made in. -/
def System.runsInSequence {α : Type} [LinearOrderedField α] (s : System α) :
    List (SystemOp α) → Prop
  | [] => True
  | op :: ops =>
    op.inSequence s ∧
      match s.step op with
      | none => True
      | some s1 => s1.runsInSequence ops

/-- A ride that holds the driver `p`: it is bound to `p` and is `CONFIRMED` or
`IN_PROGRESS`. -/
def Ride.holdsDriver {α : Type} (ride : Ride α) (p : DriverPtr) : Prop :=
  ride.driver = some p ∧
    (ride.status = RideStatus.CONFIRMED ∨ ride.status = RideStatus.IN_PROGRESS)

/-- The ride at address `i` holds the driver `p`. -/
def System.holds {α : Type} (s : System α) (i : Nat) (p : DriverPtr) : Prop :=
  ∃ ride, s.rideObjs[i]? = some ride ∧ ride.holdsDriver p

/-- The invariant of the process under lifecycle order: the drivers `ON_TRIP`
are those some ride holds, and no driver is held by two rides. -/
def System.Consistent {α : Type} (s : System α) : Prop :=
  (∀ p, (s.world.heap p).status = DriverStatus.ON_TRIP ↔ ∃ i, s.holds i p) ∧
    ∀ i j p, s.holds i p → s.holds j p → i = j

/-- The order of the picks as the specification words it: the candidates
stably sorted by ascending distance to the pickup (insertion sort puts an
element in front of the later ones that are as far). -/
def sortedByDistance {α : Type} [LinearOrderedField α] (sqrt : α → α) (heap : DriverHeap α)
    (pickup : Location α) (candidates : List DriverPtr) : List DriverPtr :=
  candidates.insertionSort
    (fun p q => pickup.distanceTo sqrt (heap p).location ≤
      pickup.distanceTo sqrt (heap q).location)

/-- The states the driver registry can be in: a `std::map` holds its keys in
strictly ascending order, and `addDriver` stores every driver under its own
id, which no method changes. -/
def DriverManager.WellFormed {α : Type} (w : World α) : Prop :=
  w.drivers.Pairwise (fun a b => a.1 < b.1) ∧ ∀ e ∈ w.drivers, (w.heap e.2).id = e.1

/-! ## The demonstration data of `main` -/

/-- Rider `R1` of `main`. -/
def rider1 : Rider ℚ :=
  { id := "R1", name := "Alice", phone := "111-222", location := { x := 0, y := 0 } }

/-- Driver `D1` of `main`. -/
def driver1 : Driver ℚ :=
  Driver.create "D1" "John" "555-666" VehicleType.SEDAN "DL123" { x := 1, y := 1 } 4.8

/-- Driver `D2` of `main`. -/
def driver2 : Driver ℚ :=
  Driver.create "D2" "Mike" "777-888" VehicleType.SUV "DL456" { x := 10, y := 10 } 4.9

/-- Driver `D3` of `main`. -/
def driver3 : Driver ℚ :=
  Driver.create "D3" "Sarah" "999-000" VehicleType.SEDAN "DL789" { x := 2, y := 2 } 4.95

/-- The driver objects of `main`: `D1` at address 0, `D2` at 1, `D3` elsewhere. -/
def demoHeap : DriverHeap ℚ :=
  fun p => if p = 0 then driver1 else if p = 1 then driver2 else driver3

/-- Booking `normalRideDetails` of `main`. -/
def normalRideDetails : BookingDetails ℚ :=
  { pickup := { x := 0, y := 0 }, dropoff := { x := 10, y := 10 },
    vehicleType := VehicleType.SEDAN, rideType := RideType.NORMAL }

/-- The state of `main` after the three drivers are registered, with the
default nearest-driver strategy and a random source whose draws are all `r`. -/
def demoWorld (r : Nat) : World ℚ :=
  { heap := demoHeap
    riders := [("R1", rider1)]
    drivers := [("D1", 0), ("D2", 1), ("D3", 2)]
    matchingStrategy := NearestDriverStrategy.matchDriver Rat.sqrt DBL_MAX
    rand := fun _ => r
    randCalls := 0
    out := [] }

/-- Ride `ride1` of `main` as `createRide` returns it: freshly constructed,
with the two notifiers attached. -/
def demoRide : Ride ℚ :=
  ((Ride.create "RIDE_1" (some rider1) normalRideDetails).attachObserver
    RideObserver.RiderNotifier).attachObserver RideObserver.DriverNotifier

/-- A sedan driver whose rating is 0. -/
def unratedDriver : Driver ℚ :=
  Driver.create "D0" "New" "000-001" VehicleType.SEDAN "DL000" { x := 1, y := 1 } 0

/-- The ride of the demonstration once driver `D1` (address 0) is bound to it. -/
def demoRideConfirmed : Ride ℚ :=
  (demoRide.assignDriver (some 0)).1

/-- The state the demonstration is in when the first draw of the random source
is an acceptance of `D1`: one draw made, the observers called, `D1` on trip. -/
def demoWorldConfirmed : World ℚ :=
  { demoWorld 0 with
    randCalls := 1,
    out := (demoRide.assignDriver (some 0)).2,
    heap := Function.update demoHeap 0 (driver1.setStatus DriverStatus.ON_TRIP) }

/-- The demonstration with a random source whose first draw is 99, a
rejection, and whose later draws are 0, acceptances. -/
def demoWorldSecond : World ℚ :=
  { demoWorld 0 with rand := fun i => if i = 0 then 99 else 0 }

/-- The process of the demonstration at its start: no driver registered, no
ride, the nearest-driver strategy, a random source whose draws are all 0. -/
def demoSystem : System ℚ :=
  System.init demoHeap (NearestDriverStrategy.matchDriver Rat.sqrt DBL_MAX) (fun _ => 0)

/-- The process of the demonstration once `D1` is registered and a ride is
created for `R1`. -/
def demoSystemCreated : System ℚ :=
  (RideManager.createRide
    { demoSystem with world := DriverManager.addDriver demoSystem.world 0 }
    (some rider1) normalRideDetails).1

/-- The process of the demonstration once `D1` has accepted that ride. -/
def demoSystemAssigned : System ℚ :=
  { demoSystemCreated with
    world :=
      { demoSystemCreated.world with
        randCalls := 1,
        out := (demoRide.assignDriver (some 0)).2,
        heap := Function.update demoHeap 0 (driver1.setStatus DriverStatus.ON_TRIP) },
    rideObjs := [demoRideConfirmed] }

/-- The process of the demonstration once that ride is started. -/
def demoSystemStarted : System ℚ :=
  { demoSystemAssigned with
    world := (RideManager.startRide demoSystemAssigned.world demoRideConfirmed).1,
    rideObjs := [(RideManager.startRide demoSystemAssigned.world demoRideConfirmed).2] }

/-- A second driver object with the id of `D1`. -/
def driver1Again : Driver ℚ :=
  Driver.create "D1" "Jack" "555-777" VehicleType.SUV "DL321" { x := 3, y := 3 } 4.2

/-- Driver objects for re-registration: `D1` at address 0, another driver
with the id `D1` elsewhere. -/
def upsertHeap : DriverHeap ℚ :=
  fun p => if p = 0 then driver1 else driver1Again

/-- A state with empty registries over `upsertHeap`. -/
def upsertWorld : World ℚ :=
  { demoWorld 0 with heap := upsertHeap, riders := [], drivers := [] }

/-- Calls in lifecycle order: `D1` is registered, a ride is created, a driver
is assigned to it and it is started. -/
def demoOpsInOrder : List (SystemOp ℚ) :=
  [SystemOp.addDriver 0, SystemOp.createRide (some rider1) normalRideDetails,
    SystemOp.assignDriver 0 2, SystemOp.startRide 0]

/-- Calls out of lifecycle order: `D1` is registered, a ride is created, a
driver is assigned to it, it is completed and then started. -/
def demoOpsOutOfOrder : List (SystemOp ℚ) :=
  [SystemOp.addDriver 0, SystemOp.createRide (some rider1) normalRideDetails,
    SystemOp.assignDriver 0 2,
    SystemOp.completeRide 0 (FareCalculator.base.calculateFare Rat.sqrt),
    SystemOp.startRide 0]

/-! ## Data in binary64 arithmetic -/

/-- A sedan driver standing at `(2 ^ 600, 0)`; both coordinates are binary64
values. -/
def remoteDriver : Driver F64 :=
  Driver.create "D9" "Far" "000-000" VehicleType.SEDAN "DL999"
    { x := F64.fin (2 ^ 600), y := F64.fin 0 } 4.5

/-- A booking of a sedan with the pickup at the origin. -/
def remoteRideDetails : BookingDetails F64 :=
  { pickup := { x := F64.fin 0, y := F64.fin 0 }, dropoff := { x := F64.fin 10, y := F64.fin 10 },
    vehicleType := VehicleType.SEDAN, rideType := RideType.NORMAL }

/-- A state in which the driver at `(2 ^ 600, 0)` is the one registered driver,
with the default nearest-driver strategy and a random source whose draws are
all 0, acceptances. -/
def remoteWorld : World F64 :=
  { heap := fun _ => remoteDriver
    riders := []
    drivers := [("D9", 0)]
    matchingStrategy := NearestDriverStrategy.matchDriver F64.sqrt F64.maxFinite
    rand := fun _ => 0
    randCalls := 0
    out := [] }

/-- A freshly constructed ride for the booking from the origin. -/
def remoteRide : Ride F64 :=
  Ride.create "RIDE_1" none remoteRideDetails

section Lifecycle

variable {α : Type}

theorem RideOp.apply_status (op : RideOp α) (ride : Ride α) :
    (op.apply ride).status = op.target := by
  cases op <;> rfl

theorem rideTrace_head (ride : Ride α) (ops : List (RideOp α)) :
    (rideTrace ride ops).head? = some ride := by
  cases ops <;> rfl

/-- C1, counterexample: the ride of the demonstration is still `REQUESTED` (no
driver was ever assigned), yet `RideManager::startRide` goes through: the ride
comes back `IN_PROGRESS`, so it is not left unchanged.  Likewise
`RideManager::completeRide` on it goes through and gives a `COMPLETED` ride. -/
theorem startRide_accepts_requested_ride :
    demoRide.status = RideStatus.REQUESTED ∧ demoRide.driver = none ∧
      (RideManager.startRide (demoWorld 0) demoRide).2.status = RideStatus.IN_PROGRESS ∧
      (RideManager.startRide (demoWorld 0) demoRide).2 ≠ demoRide ∧
      (RideManager.completeRide (demoWorld 0) demoRide
        (FareCalculator.base.calculateFare Rat.sqrt)).2.status = RideStatus.COMPLETED := by
  refine ⟨rfl, rfl, rfl, ?_, rfl⟩
  intro h
  have h2 := congrArg Ride.status h
  exact absurd h2 (by decide)

/-- C1, as amended: `RideManager::startRide` and `RideManager::completeRide`
check nothing and always go through.  Whatever the status of the ride,
`startRide` returns it with status `IN_PROGRESS` and nothing else changed, and
`completeRide` returns it with status `COMPLETED`, the fare the calculator
computed on the ride as it was, and nothing else changed. -/
theorem startRide_completeRide_unconditional (w : World α) (ride : Ride α)
    (fareCalculator : Ride α → α) :
    (RideManager.startRide w ride).2 = { ride with status := RideStatus.IN_PROGRESS } ∧
      (RideManager.completeRide w ride fareCalculator).2 =
        { ride with status := RideStatus.COMPLETED, fare := fareCalculator ride } := by
  refine ⟨rfl, ?_⟩
  unfold RideManager.completeRide
  cases h : ride.driver <;> simp [Ride.completeRide, h]

/-- C2, counterexample: on the ride of the demonstration the calls
`assignDriver`, `startRide`, `completeRide`, `assignDriver` give the statuses
0, 1, 2, 3, 1: the last call takes a `COMPLETED` ride back to `CONFIRMED`. -/
theorem assignDriver_after_completeRide_lowers_status :
    (rideTrace demoRide
        [RideOp.assignDriver (some 0), RideOp.startRide, RideOp.completeRide 100,
          RideOp.assignDriver (some 0)]).map (fun r => r.status.rank) = [0, 1, 2, 3, 1] ∧
      ¬ List.Chain' (fun a b : Ride ℚ => a.status.rank ≤ b.status.rank)
        (rideTrace demoRide
          [RideOp.assignDriver (some 0), RideOp.startRide, RideOp.completeRide 100,
            RideOp.assignDriver (some 0)]) := by
  refine ⟨rfl, ?_⟩
  simp [rideTrace, RideOp.apply, Ride.assignDriver, Ride.startRide, Ride.completeRide,
    RideStatus.rank]

/-- C2, as amended: each lifecycle method writes its own status whatever the
current one.  For a ride and a sequence of calls of `assignDriver`, `startRide`
and `completeRide` in which the status written by each call is at least the
status written by the call before it, and that of the first call at least the
status the ride starts with, the status after each call is greater than or
equal to the status before it. -/
theorem status_nondecreasing_in_lifecycle_order (ride : Ride α) (ops : List (RideOp α))
    (h : List.Chain (fun a b : Nat => a ≤ b) ride.status.rank
      (ops.map (fun op => op.target.rank))) :
    List.Chain' (fun a b : Ride α => a.status.rank ≤ b.status.rank) (rideTrace ride ops) := by
  induction ops generalizing ride with
  | nil => simp [rideTrace]
  | cons op ops ih =>
    rw [List.map_cons, List.chain_cons] at h
    show List.Chain' _ (ride :: rideTrace (op.apply ride) ops)
    rw [List.chain'_cons']
    refine ⟨?_, ih (op.apply ride) ?_⟩
    · intro y hy
      rw [rideTrace_head] at hy
      cases hy
      rw [RideOp.apply_status]
      exact h.1
    · rw [RideOp.apply_status]
      exact h.2

/-- Witness for C2: the calls `assignDriver`, `startRide`, `completeRide` on the
fresh ride of the demonstration. -/
theorem status_nondecreasing_in_lifecycle_order_witness :
    List.Chain (fun a b : Nat => a ≤ b) demoRide.status.rank
        ([RideOp.assignDriver (some 0), RideOp.startRide, RideOp.completeRide (100 : ℚ)].map
          (fun op => op.target.rank)) ∧
      List.Chain' (fun a b : Ride ℚ => a.status.rank ≤ b.status.rank)
        (rideTrace demoRide
          [RideOp.assignDriver (some 0), RideOp.startRide, RideOp.completeRide 100]) :=
  have h : List.Chain (fun a b : Nat => a ≤ b) demoRide.status.rank
      ([RideOp.assignDriver (some 0), RideOp.startRide, RideOp.completeRide (100 : ℚ)].map
        (fun op => op.target.rank)) := by
    simp [demoRide, Ride.attachObserver, Ride.create, RideOp.target, RideStatus.rank]
  ⟨h, status_nondecreasing_in_lifecycle_order demoRide _ h⟩

end Lifecycle

/-! ## Matching strategies (C4, C5), and the nearest pick in exact arithmetic -/

section Selection

variable {ι β : Type}

/-- The loop both strategies run, for an arbitrary comparison `r`: after the
pass the state is either untouched, no element being better than the bound, or
it holds the first of the best elements. -/
theorem foldl_keep_better (r : β → β → Prop) [DecidableRel r] (key : ι → β)
    (htrans : ∀ a b c, r a b → r b c → r a c)
    (hmix : ∀ a m x, r a m → ¬ r x m → r a x)
    (l : List ι) (b : Option ι) (m : β) :
    (l.foldl (fun (acc : Option ι × β) d => if r (key d) acc.2 then (some d, key d) else acc)
          (b, m) = (b, m) ∧ ∀ x ∈ l, ¬ r (key x) m) ∨
      ∃ pre d post, l = pre ++ d :: post ∧
        l.foldl (fun (acc : Option ι × β) d => if r (key d) acc.2 then (some d, key d) else acc)
          (b, m) = (some d, key d) ∧
        r (key d) m ∧ (∀ x ∈ pre, r (key d) (key x)) ∧ ∀ x ∈ post, ¬ r (key x) (key d) := by
  induction l generalizing b m with
  | nil => left; simp
  | cons x l ih =>
    rw [List.foldl_cons]
    by_cases hx : r (key x) m
    · simp only [hx, if_true]
      rcases ih (some x) (key x) with ⟨heq, hall⟩ | ⟨pre, d, post, hl, heq, hd, hpre, hpost⟩
      · right
        exact ⟨[], x, l, rfl, heq, hx, by simp, hall⟩
      · right
        refine ⟨x :: pre, d, post, by simp [hl], heq, htrans _ _ _ hd hx, ?_, hpost⟩
        intro y hy
        rcases List.mem_cons.1 hy with rfl | hy
        · exact hd
        · exact hpre y hy
    · simp only [hx, if_false]
      rcases ih b m with ⟨heq, hall⟩ | ⟨pre, d, post, hl, heq, hd, hpre, hpost⟩
      · left
        refine ⟨heq, ?_⟩
        intro y hy
        rcases List.mem_cons.1 hy with rfl | hy
        · exact hx
        · exact hall y hy
      · right
        refine ⟨x :: pre, d, post, by simp [hl], heq, hd, ?_, hpost⟩
        intro y hy
        rcases List.mem_cons.1 hy with rfl | hy
        · exact hmix _ _ _ hd hx
        · exact hpre y hy

end Selection

section Strategies

variable {α : Type} [LinearOrderedField α]

/-- The nearest-driver loop: either it returns nothing and no candidate is
nearer than `dblMax`, or it returns the first of the nearest candidates. -/
theorem nearest_matchDriver_cases (sqrt : α → α) (dblMax : α)
    (heap : DriverHeap α) (pickup : Location α) (drivers : List DriverPtr) :
    (NearestDriverStrategy.matchDriver sqrt dblMax heap pickup drivers = none ∧
        ∀ x ∈ drivers, dblMax ≤ pickup.distanceTo sqrt (heap x).location) ∨
      ∃ pre d post, drivers = pre ++ d :: post ∧
        NearestDriverStrategy.matchDriver sqrt dblMax heap pickup drivers = some d ∧
        pickup.distanceTo sqrt (heap d).location < dblMax ∧
        (∀ x ∈ pre, pickup.distanceTo sqrt (heap d).location <
          pickup.distanceTo sqrt (heap x).location) ∧
        ∀ x ∈ post, pickup.distanceTo sqrt (heap d).location ≤
          pickup.distanceTo sqrt (heap x).location := by
  have key := foldl_keep_better (fun a b : α => a < b)
    (fun d : DriverPtr => pickup.distanceTo sqrt (heap d).location)
    (fun a b c => lt_trans) (fun a m x h1 h2 => lt_of_lt_of_le h1 (not_lt.1 h2))
    drivers none dblMax
  unfold NearestDriverStrategy.matchDriver
  rcases key with ⟨heq, hall⟩ | ⟨pre, d, post, hl, heq, hd, hpre, hpost⟩
  · left
    exact ⟨by simpa using congrArg Prod.fst heq, fun x hx => not_lt.1 (hall x hx)⟩
  · right
    exact ⟨pre, d, post, hl, by simpa using congrArg Prod.fst heq, hd, hpre,
      fun x hx => not_lt.1 (hpost x hx)⟩

/-- The best-rating loop: either it returns nothing and no candidate is rated
above 0, or it returns the first of the best-rated candidates. -/
theorem bestRating_matchDriver_cases
    (heap : DriverHeap α) (pickup : Location α) (drivers : List DriverPtr) :
    (BestRatingDriverStrategy.matchDriver heap pickup drivers = none ∧
        ∀ x ∈ drivers, (heap x).rating ≤ 0) ∨
      ∃ pre d post, drivers = pre ++ d :: post ∧
        BestRatingDriverStrategy.matchDriver heap pickup drivers = some d ∧
        0 < (heap d).rating ∧
        (∀ x ∈ pre, (heap x).rating < (heap d).rating) ∧
        ∀ x ∈ post, (heap x).rating ≤ (heap d).rating := by
  have key := foldl_keep_better (fun a b : α => a > b)
    (fun d : DriverPtr => (heap d).rating)
    (fun a b c h1 h2 => lt_trans h2 h1) (fun a m x h1 h2 => lt_of_le_of_lt (not_lt.1 h2) h1)
    drivers none 0
  unfold BestRatingDriverStrategy.matchDriver
  rcases key with ⟨heq, hall⟩ | ⟨pre, d, post, hl, heq, hd, hpre, hpost⟩
  · left
    exact ⟨by simpa using congrArg Prod.fst heq, fun x hx => not_lt.1 (hall x hx)⟩
  · right
    exact ⟨pre, d, post, hl, by simpa using congrArg Prod.fst heq, hd, hpre,
      fun x hx => not_lt.1 (hpost x hx)⟩

/-- A candidate list with nobody nearer than `dblMax` yields no driver. -/
theorem nearest_matchDriver_none_of_far (sqrt : α → α) (dblMax : α)
    (heap : DriverHeap α) (pickup : Location α) (drivers : List DriverPtr)
    (h : ∀ x ∈ drivers, dblMax ≤ pickup.distanceTo sqrt (heap x).location) :
    NearestDriverStrategy.matchDriver sqrt dblMax heap pickup drivers = none := by
  rcases nearest_matchDriver_cases sqrt dblMax heap pickup drivers with
    ⟨heq, _⟩ | ⟨pre, d, post, hl, _, hd, _, _⟩
  · exact heq
  · have hmem : d ∈ drivers := by rw [hl]; simp
    exact absurd hd (not_lt.2 (h d hmem))

/-- In exact arithmetic: for every pickup and every candidate list in which
some candidate is nearer to the pickup than the value `minDist` starts at, the
nearest-driver loop returns a driver of the list such that every candidate
before it is strictly farther from the pickup and every candidate after it is
at least as far: a nearest candidate, and the first of the nearest ones. -/
theorem nearest_returns_first_nearest (sqrt : α → α) (dblMax : α)
    (heap : DriverHeap α) (pickup : Location α) (drivers : List DriverPtr)
    (h : ∃ p ∈ drivers, pickup.distanceTo sqrt (heap p).location < dblMax) :
    ∃ pre d post, drivers = pre ++ d :: post ∧
      NearestDriverStrategy.matchDriver sqrt dblMax heap pickup drivers = some d ∧
      (∀ x ∈ pre, pickup.distanceTo sqrt (heap d).location <
        pickup.distanceTo sqrt (heap x).location) ∧
      ∀ x ∈ post, pickup.distanceTo sqrt (heap d).location ≤
        pickup.distanceTo sqrt (heap x).location := by
  rcases nearest_matchDriver_cases sqrt dblMax heap pickup drivers with
    ⟨_, hall⟩ | ⟨pre, d, post, hl, heq, _, hpre, hpost⟩
  · obtain ⟨p, hp, hlt⟩ := h
    exact absurd hlt (not_lt.2 (hall p hp))
  · exact ⟨pre, d, post, hl, heq, hpre, hpost⟩

/-- Example, in exact arithmetic: the sedan drivers `D1` at (1,1) and `D3` at
(2,2) of the demonstration, seen from the pickup (1,0); `D1` is at distance 1. -/
theorem nearest_returns_first_nearest_example :
    (∃ p ∈ ([0, 2] : List DriverPtr),
        Location.distanceTo Rat.sqrt { x := 1, y := 0 } (demoHeap p).location < DBL_MAX) ∧
      ∃ pre d post, ([0, 2] : List DriverPtr) = pre ++ d :: post ∧
        NearestDriverStrategy.matchDriver Rat.sqrt DBL_MAX demoHeap { x := 1, y := 0 } [0, 2] =
          some d ∧
        (∀ x ∈ pre, Location.distanceTo Rat.sqrt { x := 1, y := 0 } (demoHeap d).location <
          Location.distanceTo Rat.sqrt { x := 1, y := 0 } (demoHeap x).location) ∧
        ∀ x ∈ post, Location.distanceTo Rat.sqrt { x := 1, y := 0 } (demoHeap d).location ≤
          Location.distanceTo Rat.sqrt { x := 1, y := 0 } (demoHeap x).location :=
  have h : ∃ p ∈ ([0, 2] : List DriverPtr),
      Location.distanceTo Rat.sqrt { x := 1, y := 0 } (demoHeap p).location < DBL_MAX := by
    refine ⟨0, by simp, ?_⟩
    have e : ((1 : ℚ) - 1) ^ 2 + (0 - 1) ^ 2 = 1 * 1 := by norm_num
    simp only [Location.distanceTo, demoHeap, driver1, Driver.create, if_true]
    rw [e, Rat.sqrt_eq]
    unfold DBL_MAX
    norm_num
  ⟨h, nearest_returns_first_nearest Rat.sqrt DBL_MAX demoHeap { x := 1, y := 0 } [0, 2] h⟩

/-- C4, counterexample: a single candidate rated 0 (a rating within [0,5]):
the list is not empty and `BestRatingDriverStrategy::matchDriver` returns no
driver, since 0 is not above the initial `maxRating`. -/
theorem bestRating_returns_none_on_unrated_candidate :
    ([0] : List DriverPtr) ≠ [] ∧
      (∀ p ∈ ([0] : List DriverPtr), 0 ≤ unratedDriver.rating ∧ unratedDriver.rating ≤ 5) ∧
      BestRatingDriverStrategy.matchDriver (fun _ => unratedDriver) { x := 0, y := 0 } [0] =
        none := by
  refine ⟨by simp, ?_, ?_⟩
  · simp [unratedDriver, Driver.create]
  · simp [BestRatingDriverStrategy.matchDriver, unratedDriver, Driver.create]

/-- C4, as amended: for every pickup and every candidate list of drivers whose
ratings lie in [0,5], `BestRatingDriverStrategy::matchDriver` returns no driver
exactly when every candidate is rated 0, the empty list included; it returns a
driver as soon as one candidate is rated above 0. -/
theorem bestRating_none_iff_all_unrated (heap : DriverHeap α) (pickup : Location α)
    (drivers : List DriverPtr)
    (h : ∀ p ∈ drivers, 0 ≤ (heap p).rating ∧ (heap p).rating ≤ 5) :
    BestRatingDriverStrategy.matchDriver heap pickup drivers = none ↔
      ∀ p ∈ drivers, (heap p).rating = 0 := by
  rcases bestRating_matchDriver_cases heap pickup drivers with
    ⟨heq, hall⟩ | ⟨pre, d, post, hl, heq, hd, _, _⟩
  · exact ⟨fun _ p hp => le_antisymm (hall p hp) (h p hp).1, fun _ => heq⟩
  · constructor
    · intro hn
      rw [heq] at hn
      cases hn
    · intro hz
      have hmem : d ∈ drivers := by rw [hl]; simp
      rw [hz d hmem] at hd
      exact absurd hd (lt_irrefl 0)

/-- Witness for C4: the sedan drivers `D1` (rated 4.8) and `D3` (rated 4.95) of
the demonstration. -/
theorem bestRating_none_iff_all_unrated_witness :
    (∀ p ∈ ([0, 2] : List DriverPtr), 0 ≤ (demoHeap p).rating ∧ (demoHeap p).rating ≤ 5) ∧
      (BestRatingDriverStrategy.matchDriver demoHeap { x := 0, y := 0 } [0, 2] = none ↔
        ∀ p ∈ ([0, 2] : List DriverPtr), (demoHeap p).rating = 0) :=
  have h : ∀ p ∈ ([0, 2] : List DriverPtr),
      0 ≤ (demoHeap p).rating ∧ (demoHeap p).rating ≤ 5 := by
    simp [demoHeap, driver1, driver3, Driver.create]
    norm_num
  ⟨h, bestRating_none_iff_all_unrated demoHeap { x := 0, y := 0 } [0, 2] h⟩

/-- C5: when some candidate is rated above 0,
`BestRatingDriverStrategy::matchDriver` returns a driver of the list such that
every candidate before it is rated strictly lower and every candidate after it
is rated at most as high: a candidate with the maximum rating, and the first of
them.  And a driver it returns, on any list, is rated strictly above 0. -/
theorem bestRating_returns_first_best (heap : DriverHeap α) (pickup : Location α)
    (drivers : List DriverPtr) :
    ((∃ p ∈ drivers, 0 < (heap p).rating) →
        ∃ pre d post, drivers = pre ++ d :: post ∧
          BestRatingDriverStrategy.matchDriver heap pickup drivers = some d ∧
          (∀ x ∈ pre, (heap x).rating < (heap d).rating) ∧
          ∀ x ∈ post, (heap x).rating ≤ (heap d).rating) ∧
      ∀ d, BestRatingDriverStrategy.matchDriver heap pickup drivers = some d →
        0 < (heap d).rating := by
  rcases bestRating_matchDriver_cases heap pickup drivers with
    ⟨heq, hall⟩ | ⟨pre, d, post, hl, heq, hd, hpre, hpost⟩
  · refine ⟨?_, ?_⟩
    · rintro ⟨p, hp, hlt⟩
      exact absurd hlt (not_lt.2 (hall p hp))
    · intro d hs
      rw [heq] at hs
      cases hs
  · refine ⟨fun _ => ⟨pre, d, post, hl, heq, hpre, hpost⟩, ?_⟩
    intro d1 hs
    rw [heq] at hs
    cases hs
    exact hd

/-- Witness for C5: among the drivers `D1` (4.8), `D2` (4.9) and `D3` (4.95) of
the demonstration the strategy returns `D3`, which is rated above 0. -/
theorem bestRating_returns_first_best_witness :
    (∃ p ∈ ([0, 1, 2] : List DriverPtr), 0 < (demoHeap p).rating) ∧
      (∃ pre d post, ([0, 1, 2] : List DriverPtr) = pre ++ d :: post ∧
        BestRatingDriverStrategy.matchDriver demoHeap { x := 0, y := 0 } [0, 1, 2] = some d ∧
        (∀ x ∈ pre, (demoHeap x).rating < (demoHeap d).rating) ∧
        ∀ x ∈ post, (demoHeap x).rating ≤ (demoHeap d).rating) ∧
      BestRatingDriverStrategy.matchDriver demoHeap { x := 0, y := 0 } [0, 1, 2] = some 2 ∧
      0 < (demoHeap 2).rating :=
  have h : ∃ p ∈ ([0, 1, 2] : List DriverPtr), 0 < (demoHeap p).rating :=
    ⟨0, by simp, by simp [demoHeap, driver1, Driver.create]; norm_num⟩
  have e : BestRatingDriverStrategy.matchDriver demoHeap { x := 0, y := 0 } [0, 1, 2] =
      some 2 := by
    simp [BestRatingDriverStrategy.matchDriver, demoHeap, driver1, driver2, driver3,
      Driver.create]
    norm_num
  ⟨h, (bestRating_returns_first_best demoHeap { x := 0, y := 0 } [0, 1, 2]).1 h, e,
    (bestRating_returns_first_best demoHeap { x := 0, y := 0 } [0, 1, 2]).2 2 e⟩

end Strategies

/-! ## The dispatch loop (C6, C7, C8) -/

section Dispatch

variable {α : Type}

theorem assignLoop_zero (w : World α) (ride : Ride α) (pool : List DriverPtr) :
    RideManager.assignLoop 0 w ride pool = none := rfl

theorem assignLoop_empty (fuel : Nat) (w : World α) (ride : Ride α) :
    RideManager.assignLoop (fuel + 1) w ride [] = some (false, w, ride) := rfl

theorem assignLoop_abstain (fuel : Nat) (w : World α) (ride : Ride α) (pool : List DriverPtr)
    (hs : w.matchingStrategy w.heap ride.details.pickup pool = none) :
    RideManager.assignLoop (fuel + 1) w ride pool = some (false, w, ride) := by
  cases pool with
  | nil => rfl
  | cons x l => simp [RideManager.assignLoop, hs]

theorem assignLoop_accept (fuel : Nat) (w : World α) (ride : Ride α) (pool : List DriverPtr)
    (p : DriverPtr) (hne : pool ≠ [])
    (hs : w.matchingStrategy w.heap ride.details.pickup pool = some p)
    (ha : w.rand w.randCalls % 100 < 60) :
    RideManager.assignLoop (fuel + 1) w ride pool =
      some (true,
        { w with
          randCalls := w.randCalls + 1,
          out := w.out ++ (ride.assignDriver (some p)).2,
          heap := Function.update w.heap p ((w.heap p).setStatus DriverStatus.ON_TRIP) },
        (ride.assignDriver (some p)).1) := by
  cases pool with
  | nil => exact absurd rfl hne
  | cons x l => simp [RideManager.assignLoop, hs, ha]

theorem assignLoop_reject (fuel : Nat) (w : World α) (ride : Ride α) (pool : List DriverPtr)
    (p : DriverPtr) (hne : pool ≠ [])
    (hs : w.matchingStrategy w.heap ride.details.pickup pool = some p)
    (ha : ¬ w.rand w.randCalls % 100 < 60) :
    RideManager.assignLoop (fuel + 1) w ride pool =
      RideManager.assignLoop fuel
        { w with
          randCalls := w.randCalls + 1,
          out := w.out ++ [Output.rejected (w.heap p).id] }
        ride (pool.filter (fun d => d != p)) := by
  cases pool with
  | nil => exact absurd rfl hne
  | cons x l => simp [RideManager.assignLoop, hs, ha]

theorem filter_ne_length_lt (p : DriverPtr) (l : List DriverPtr) (h : p ∈ l) :
    (l.filter (fun d => d != p)).length < l.length := by
  induction l with
  | nil => cases h
  | cons x l ih =>
    by_cases hx : x = p
    · subst hx
      simpa using Nat.lt_succ_of_le (List.length_filter_le (fun d => d != x) l)
    · have hp : p ∈ l := by
        rcases List.mem_cons.1 h with rfl | h1
        · exact absurd rfl hx
        · exact h1
      simpa [List.filter_cons, hx] using ih hp

/-- What a finished run of the dispatch loop has done.  The registries, the
strategy and the random source are untouched.  On failure the ride and the
driver objects are untouched.  On success the strategy picked the driver `p`
from some part of the pool, the last draw was an acceptance, the ride is the
one `Ride::assignDriver` makes of it, and `p` alone was set `ON_TRIP`. -/
theorem assignLoop_inv (fuel : Nat) (w : World α) (ride : Ride α) (pool : List DriverPtr)
    (b : Bool) (w' : World α) (ride' : Ride α)
    (h : RideManager.assignLoop fuel w ride pool = some (b, w', ride')) :
    w'.drivers = w.drivers ∧ w'.riders = w.riders ∧
      w'.matchingStrategy = w.matchingStrategy ∧ w'.rand = w.rand ∧
      w.randCalls ≤ w'.randCalls ∧
      (b = false → ride' = ride ∧ w'.heap = w.heap) ∧
      (b = true → ∃ p pool1, (∀ x ∈ pool1, x ∈ pool) ∧
        w.matchingStrategy w.heap ride.details.pickup pool1 = some p ∧
        ride' = (ride.assignDriver (some p)).1 ∧
        w'.heap = Function.update w.heap p ((w.heap p).setStatus DriverStatus.ON_TRIP) ∧
        w.randCalls < w'.randCalls ∧ w.rand (w'.randCalls - 1) % 100 < 60) := by
  induction fuel generalizing w pool with
  | zero => rw [assignLoop_zero] at h; cases h
  | succ n ih =>
    cases hs : w.matchingStrategy w.heap ride.details.pickup pool with
    | none =>
      rw [assignLoop_abstain n w ride pool hs] at h
      obtain ⟨rfl, rfl, rfl⟩ : false = b ∧ w = w' ∧ ride = ride' := by simpa using h
      simp
    | some p =>
      by_cases hne : pool = []
      · subst hne
        rw [assignLoop_empty] at h
        obtain ⟨rfl, rfl, rfl⟩ : false = b ∧ w = w' ∧ ride = ride' := by simpa using h
        simp
      · by_cases ha : w.rand w.randCalls % 100 < 60
        · rw [assignLoop_accept n w ride pool p hne hs ha] at h
          simp only [Option.some.injEq, Prod.mk.injEq] at h
          obtain ⟨rfl, rfl, rfl⟩ := h
          refine ⟨rfl, rfl, rfl, rfl, Nat.le_succ _, by simp, fun _ => ?_⟩
          exact ⟨p, pool, fun x hx => hx, hs, rfl, rfl, Nat.lt_succ_self _, by simpa using ha⟩
        · rw [assignLoop_reject n w ride pool p hne hs ha] at h
          obtain ⟨h1, h2, h3, h4, h5, h6, h7⟩ := ih _ _ h
          refine ⟨h1, h2, h3, h4, Nat.le_of_succ_le h5, h6, fun hb => ?_⟩
          obtain ⟨q, pool1, hsub, hq, hr, hh, hlt, hacc⟩ := h7 hb
          exact ⟨q, pool1, fun x hx => (List.mem_filter.1 (hsub x hx)).1, hq, hr, hh,
            Nat.lt_of_succ_lt hlt, hacc⟩

/-- One more unit of fuel does not change the result of a finished run. -/
theorem assignLoop_fuel_succ (fuel : Nat) (w : World α) (ride : Ride α)
    (pool : List DriverPtr) (res : Bool × World α × Ride α)
    (h : RideManager.assignLoop fuel w ride pool = some res) :
    RideManager.assignLoop (fuel + 1) w ride pool = some res := by
  induction fuel generalizing w pool with
  | zero => rw [assignLoop_zero] at h; cases h
  | succ n ih =>
    cases hs : w.matchingStrategy w.heap ride.details.pickup pool with
    | none =>
      rw [assignLoop_abstain n w ride pool hs] at h
      rw [assignLoop_abstain (n + 1) w ride pool hs]
      exact h
    | some p =>
      by_cases hne : pool = []
      · subst hne
        rw [assignLoop_empty] at h
        rw [assignLoop_empty]
        exact h
      · by_cases ha : w.rand w.randCalls % 100 < 60
        · rw [assignLoop_accept n w ride pool p hne hs ha] at h
          rw [assignLoop_accept (n + 1) w ride pool p hne hs ha]
          exact h
        · rw [assignLoop_reject n w ride pool p hne hs ha] at h
          rw [assignLoop_reject (n + 1) w ride pool p hne hs ha]
          exact ih _ _ h

theorem assignLoop_fuel_le (fuel fuel1 : Nat) (w : World α) (ride : Ride α)
    (pool : List DriverPtr) (res : Bool × World α × Ride α) (hle : fuel ≤ fuel1)
    (h : RideManager.assignLoop fuel w ride pool = some res) :
    RideManager.assignLoop fuel1 w ride pool = some res := by
  induction hle with
  | refl => exact h
  | step _ ih => exact assignLoop_fuel_succ _ w ride pool res ih

/-- With a strategy that picks from its pool, the loop finishes within one
iteration per candidate plus the final test, having drawn at most one random
number per candidate. -/
theorem assignLoop_total (fuel : Nat) (w : World α) (ride : Ride α) (pool : List DriverPtr)
    (hsel : SelectsFromPool w.matchingStrategy) (hf : pool.length < fuel) :
    ∃ res, RideManager.assignLoop fuel w ride pool = some res ∧
      res.2.1.randCalls ≤ w.randCalls + pool.length := by
  induction fuel generalizing w pool with
  | zero => exact absurd hf (Nat.not_lt_zero _)
  | succ n ih =>
    cases hs : w.matchingStrategy w.heap ride.details.pickup pool with
    | none =>
      exact ⟨_, assignLoop_abstain n w ride pool hs, Nat.le_add_right _ _⟩
    | some p =>
      have hmem : p ∈ pool := hsel _ _ _ _ hs
      have hne : pool ≠ [] := List.ne_nil_of_mem hmem
      have hpos : 1 ≤ pool.length := List.length_pos_of_mem hmem
      by_cases ha : w.rand w.randCalls % 100 < 60
      · exact ⟨_, assignLoop_accept n w ride pool p hne hs ha,
          Nat.add_le_add_left hpos _⟩
      · have hlt := filter_ne_length_lt p pool hmem
        obtain ⟨res, hres, hb⟩ := ih
          { w with
            randCalls := w.randCalls + 1,
            out := w.out ++ [Output.rejected (w.heap p).id] }
          (pool.filter (fun d => d != p)) hsel (by omega)
        refine ⟨res, ?_, ?_⟩
        · rw [assignLoop_reject n w ride pool p hne hs ha]
          exact hres
        · simp only at hb
          omega

end Dispatch

section DispatchClaims

variable {α : Type} [LinearOrderedField α]

theorem nearest_selectsFromPool (sqrt : α → α) (dblMax : α) :
    SelectsFromPool (NearestDriverStrategy.matchDriver sqrt dblMax) := by
  intro heap pickup drivers p hp
  rcases nearest_matchDriver_cases sqrt dblMax heap pickup drivers with
    ⟨heq, _⟩ | ⟨pre, d, post, hl, heq, _, _, _⟩
  · rw [heq] at hp
    cases hp
  · rw [heq] at hp
    cases hp
    rw [hl]
    simp

theorem bestRating_selectsFromPool :
    SelectsFromPool (BestRatingDriverStrategy.matchDriver : DriverMatchingStrategy α) := by
  intro heap pickup drivers p hp
  rcases bestRating_matchDriver_cases heap pickup drivers with
    ⟨heq, _⟩ | ⟨pre, d, post, hl, heq, _, _, _⟩
  · rw [heq] at hp
    cases hp
  · rw [heq] at hp
    cases hp
    rw [hl]
    simp

theorem reference_selectsFromPool (sqrt : α → α) (dblMax : α)
    (strategy : DriverMatchingStrategy α)
    (hs : strategy = NearestDriverStrategy.matchDriver sqrt dblMax ∨
      strategy = BestRatingDriverStrategy.matchDriver) :
    SelectsFromPool strategy := by
  rcases hs with rfl | rfl
  · exact nearest_selectsFromPool sqrt dblMax
  · exact bestRating_selectsFromPool

/-- The drivers `getAvailableDrivers` returns are the registered ones that are
`AVAILABLE` and of the requested type. -/
theorem mem_getAvailableDrivers {β : Type} (w : World β) (type : VehicleType) (p : DriverPtr) :
    p ∈ DriverManager.getAvailableDrivers w type ↔
      (∃ id, (id, p) ∈ w.drivers) ∧ (w.heap p).status = DriverStatus.AVAILABLE ∧
        (w.heap p).vehicleType = type := by
  simp only [DriverManager.getAvailableDrivers, List.mem_map, List.mem_filter,
    Bool.and_eq_true, decide_eq_true_eq, Driver.isAvailable, beq_iff_eq]
  constructor
  · rintro ⟨⟨id, q⟩, ⟨hmem, hst, hty⟩, rfl⟩
    exact ⟨⟨id, hmem⟩, hst, hty⟩
  · rintro ⟨⟨id, hmem⟩, hst, hty⟩
    exact ⟨(id, p), ⟨hmem, hst, hty⟩, rfl⟩

/-- C6: with either reference strategy, if every draw of the random source
from now on is a rejection, `RideManager::assignDriver` on a `REQUESTED` ride
with no driver returns `false`, given fuel for one iteration per candidate and
the final test; the ride comes back as it was, still `REQUESTED` with no
driver, and no driver object and no registry entry has changed. -/
theorem assignDriver_fails_when_all_reject (sqrt : α → α) (dblMax : α) (w : World α)
    (ride : Ride α) (fuel : Nat)
    (hs : w.matchingStrategy = NearestDriverStrategy.matchDriver sqrt dblMax ∨
      w.matchingStrategy = BestRatingDriverStrategy.matchDriver)
    (hreq : ride.status = RideStatus.REQUESTED) (hnd : ride.driver = none)
    (hrej : ∀ k, w.randCalls ≤ k → ¬ w.rand k % 100 < 60)
    (hf : (DriverManager.getAvailableDrivers w ride.details.vehicleType).length < fuel) :
    ∃ w' ride', RideManager.assignDriver fuel w ride = some (false, w', ride') ∧
      ride' = ride ∧ ride'.status = RideStatus.REQUESTED ∧ ride'.driver = none ∧
      w'.heap = w.heap ∧ w'.drivers = w.drivers := by
  obtain ⟨⟨b, w', ride'⟩, hres, _⟩ := assignLoop_total fuel w ride _
    (reference_selectsFromPool sqrt dblMax _ hs) hf
  obtain ⟨h1, _, _, _, _, h6, h7⟩ := assignLoop_inv fuel w ride _ b w' ride' hres
  cases b with
  | true =>
    obtain ⟨p, pool1, _, _, _, _, hlt, hacc⟩ := h7 rfl
    exact absurd hacc (hrej _ (by omega))
  | false =>
    obtain ⟨hr, hh⟩ := h6 rfl
    exact ⟨w', ride', hres, hr, by rw [hr]; exact hreq, by rw [hr]; exact hnd, hh, h1⟩

/-- C7: when `RideManager::assignDriver`, run with a strategy that picks from
its pool (as both reference strategies do), returns `true`, the ride is
`CONFIRMED`, its driver is a registered driver that was `AVAILABLE` and of the
requested vehicle type before the call, that driver is now `ON_TRIP`, and every
other driver object is as it was. -/
theorem assignDriver_success_binds_available_driver {β : Type} (fuel : Nat) (w w' : World β)
    (ride ride' : Ride β) (hsel : SelectsFromPool w.matchingStrategy)
    (h : RideManager.assignDriver fuel w ride = some (true, w', ride')) :
    ride'.status = RideStatus.CONFIRMED ∧
      ∃ p, ride'.driver = some p ∧ (∃ id, (id, p) ∈ w.drivers) ∧
        (w.heap p).status = DriverStatus.AVAILABLE ∧
        (w.heap p).vehicleType = ride.details.vehicleType ∧
        (w'.heap p).status = DriverStatus.ON_TRIP ∧
        ∀ q, q ≠ p → w'.heap q = w.heap q := by
  obtain ⟨_, _, _, _, _, _, h7⟩ := assignLoop_inv fuel w ride _ true w' ride' h
  obtain ⟨p, pool1, hsub, hp, hr, hh, _, _⟩ := h7 rfl
  have hmem := (mem_getAvailableDrivers w ride.details.vehicleType p).1
    (hsub p (hsel _ _ _ _ hp))
  refine ⟨by rw [hr]; rfl, p, by rw [hr]; rfl, hmem.1, hmem.2.1, hmem.2.2, ?_, ?_⟩
  · rw [hh, Function.update_same]
    rfl
  · intro q hq
    rw [hh, Function.update_noteq hq]

/-- C8: with either reference strategy, whatever the random source draws,
`RideManager::assignDriver` returns: with `n` the number of drivers
`getAvailableDrivers` gives for the type of the ride, any fuel above `n` yields
one and the same result, and the random source has been drawn from at most `n`
times, once per acceptance decision. -/
theorem assignDriver_terminates_within_pool_size (sqrt : α → α) (dblMax : α) (w : World α)
    (ride : Ride α)
    (hs : w.matchingStrategy = NearestDriverStrategy.matchDriver sqrt dblMax ∨
      w.matchingStrategy = BestRatingDriverStrategy.matchDriver) :
    ∃ res : Bool × World α × Ride α,
      (∀ fuel, (DriverManager.getAvailableDrivers w ride.details.vehicleType).length < fuel →
        RideManager.assignDriver fuel w ride = some res) ∧
      w.randCalls ≤ res.2.1.randCalls ∧
      res.2.1.randCalls - w.randCalls ≤
        (DriverManager.getAvailableDrivers w ride.details.vehicleType).length := by
  obtain ⟨res, hres, hb⟩ := assignLoop_total
    ((DriverManager.getAvailableDrivers w ride.details.vehicleType).length + 1) w ride _
    (reference_selectsFromPool sqrt dblMax _ hs) (Nat.lt_succ_self _)
  obtain ⟨b, w', ride'⟩ := res
  obtain ⟨_, _, _, _, h5, _, _⟩ := assignLoop_inv _ w ride _ b w' ride' hres
  refine ⟨(b, w', ride'), fun fuel hf => ?_, h5, ?_⟩
  · exact assignLoop_fuel_le _ fuel w ride _ _ hf hres
  · simp only at hb ⊢
    omega

theorem one_lt_DBL_MAX : (1 : ℚ) < DBL_MAX := by
  unfold DBL_MAX
  norm_num

theorem rat_sqrt_two : Rat.sqrt 2 = 1 := by
  simp [Rat.sqrt, Int.sqrt]
  norm_num [Nat.sqrt]

theorem rat_sqrt_eight : Rat.sqrt 8 = 2 := by
  simp [Rat.sqrt, Int.sqrt]
  norm_num [Nat.sqrt]

/-- With the rational square root, which rounds down, driver `D1` is at
distance 1 from the pickup (0,0) of the demonstration. -/
theorem demo_distance_driver1 :
    Location.distanceTo Rat.sqrt ({ x := 0, y := 0 } : Location ℚ) (demoHeap 0).location =
      1 := by
  have e : ((0 : ℚ) - 1) ^ 2 + (0 - 1) ^ 2 = 2 := by norm_num
  simp only [Location.distanceTo, demoHeap, driver1, Driver.create, if_true]
  rw [e, rat_sqrt_two]

/-- With the rational square root, which rounds down, driver `D3` is at
distance 2 from the pickup (0,0) of the demonstration. -/
theorem demo_distance_driver3 :
    Location.distanceTo Rat.sqrt ({ x := 0, y := 0 } : Location ℚ) (demoHeap 2).location =
      2 := by
  have e : ((0 : ℚ) - 2) ^ 2 + (0 - 2) ^ 2 = 8 := by norm_num
  have h : demoHeap 2 = driver3 := rfl
  rw [h]
  simp only [Location.distanceTo, driver3, Driver.create]
  rw [e, rat_sqrt_eight]

/-- In the demonstration the nearest-driver strategy picks `D1` among the two
sedan drivers. -/
theorem demo_nearest_picks_driver1 :
    NearestDriverStrategy.matchDriver Rat.sqrt DBL_MAX demoHeap { x := 0, y := 0 } [0, 2] =
      some 0 := by
  rcases nearest_matchDriver_cases Rat.sqrt DBL_MAX demoHeap { x := 0, y := 0 } [0, 2] with
    ⟨_, hall⟩ | ⟨pre, d, post, hl, heq, _, hpre, _⟩
  · have h := hall 0 (by simp)
    rw [demo_distance_driver1] at h
    exact absurd one_lt_DBL_MAX (not_lt.2 h)
  · rcases pre with _ | ⟨a, _ | ⟨b, rest⟩⟩
    · simp only [List.nil_append, List.cons.injEq] at hl
      rw [heq, ← hl.1]
    · simp only [List.cons_append, List.nil_append, List.cons.injEq] at hl
      obtain ⟨ha, hd, _⟩ := hl
      have h := hpre a (by simp)
      rw [← ha, ← hd, demo_distance_driver1, demo_distance_driver3] at h
      exact absurd h (by norm_num)
    · simp at hl

theorem demo_availableDrivers (r : Nat) :
    DriverManager.getAvailableDrivers (demoWorld r) VehicleType.SEDAN = [0, 2] := by
  rfl

/-- Witness for C6: the demonstration with a random source whose draws are
all 99. -/
theorem assignDriver_fails_when_all_reject_witness :
    (∀ k, (demoWorld 99).randCalls ≤ k → ¬ (demoWorld 99).rand k % 100 < 60) ∧
      (DriverManager.getAvailableDrivers (demoWorld 99) demoRide.details.vehicleType).length <
        3 ∧
      ∃ w' ride', RideManager.assignDriver 3 (demoWorld 99) demoRide = some (false, w', ride') ∧
        ride' = demoRide ∧ ride'.status = RideStatus.REQUESTED ∧ ride'.driver = none ∧
        w'.heap = (demoWorld 99).heap ∧ w'.drivers = (demoWorld 99).drivers :=
  have hrej : ∀ k, (demoWorld 99).randCalls ≤ k → ¬ (demoWorld 99).rand k % 100 < 60 := by
    intro k _
    simp [demoWorld]
  have hf : (DriverManager.getAvailableDrivers (demoWorld 99)
      demoRide.details.vehicleType).length < 3 := by
    have h : demoRide.details.vehicleType = VehicleType.SEDAN := rfl
    rw [h, demo_availableDrivers]
    simp
  ⟨hrej, hf, assignDriver_fails_when_all_reject Rat.sqrt DBL_MAX (demoWorld 99) demoRide 3
    (Or.inl rfl) rfl rfl hrej hf⟩

/-- The demonstration with a random source whose draws are all 0: the first
candidate asked, `D1`, accepts. -/
theorem demo_assignDriver :
    RideManager.assignDriver 3 (demoWorld 0) demoRide =
      some (true, demoWorldConfirmed, demoRideConfirmed) := by
  have hs : (demoWorld 0).matchingStrategy (demoWorld 0).heap demoRide.details.pickup [0, 2] =
      some 0 := demo_nearest_picks_driver1
  have ha : (demoWorld 0).rand (demoWorld 0).randCalls % 100 < 60 := by
    simp [demoWorld]
  have h := assignLoop_accept 2 (demoWorld 0) demoRide [0, 2] 0 (by simp) hs ha
  unfold RideManager.assignDriver
  have hv : demoRide.details.vehicleType = VehicleType.SEDAN := rfl
  rw [hv, demo_availableDrivers, h]
  rfl

/-- Witness for C7: the demonstration with a random source whose draws are
all 0; driver `D1` at address 0 is bound. -/
theorem assignDriver_success_binds_available_driver_witness :
    SelectsFromPool (demoWorld 0).matchingStrategy ∧
      RideManager.assignDriver 3 (demoWorld 0) demoRide =
        some (true, demoWorldConfirmed, demoRideConfirmed) ∧
      demoRideConfirmed.status = RideStatus.CONFIRMED ∧
      ∃ p, demoRideConfirmed.driver = some p ∧ (∃ id, (id, p) ∈ (demoWorld 0).drivers) ∧
        ((demoWorld 0).heap p).status = DriverStatus.AVAILABLE ∧
        ((demoWorld 0).heap p).vehicleType = demoRide.details.vehicleType ∧
        (demoWorldConfirmed.heap p).status = DriverStatus.ON_TRIP ∧
        ∀ q, q ≠ p → demoWorldConfirmed.heap q = (demoWorld 0).heap q :=
  have hsel : SelectsFromPool (demoWorld 0).matchingStrategy :=
    nearest_selectsFromPool Rat.sqrt DBL_MAX
  ⟨hsel, demo_assignDriver,
    assignDriver_success_binds_available_driver 3 (demoWorld 0) demoWorldConfirmed demoRide
      demoRideConfirmed hsel demo_assignDriver⟩

/-- Witness for C8: the demonstration, where the nearest-driver strategy is
active and two sedan drivers are available. -/
theorem assignDriver_terminates_within_pool_size_witness :
    ((demoWorld 0).matchingStrategy = NearestDriverStrategy.matchDriver Rat.sqrt DBL_MAX ∨
        (demoWorld 0).matchingStrategy = BestRatingDriverStrategy.matchDriver) ∧
      ∃ res : Bool × World ℚ × Ride ℚ,
        (∀ fuel,
          (DriverManager.getAvailableDrivers (demoWorld 0) demoRide.details.vehicleType).length <
            fuel →
          RideManager.assignDriver fuel (demoWorld 0) demoRide = some res) ∧
        (demoWorld 0).randCalls ≤ res.2.1.randCalls ∧
        res.2.1.randCalls - (demoWorld 0).randCalls ≤
          (DriverManager.getAvailableDrivers (demoWorld 0)
            demoRide.details.vehicleType).length :=
  ⟨Or.inl rfl,
    assignDriver_terminates_within_pool_size Rat.sqrt DBL_MAX (demoWorld 0) demoRide
      (Or.inl rfl)⟩

end DispatchClaims

/-! ## Completion and the base fare (C9, C10) -/

section Completion

/-- What `RideManager::completeRide` returns for a ride with a driver bound. -/
theorem completeRide_of_driver {β : Type} (w : World β) (ride : Ride β)
    (fareCalculator : Ride β → β) (p : DriverPtr) (hd : ride.driver = some p) :
    RideManager.completeRide w ride fareCalculator =
      ({ w with
          out := w.out ++ (ride.completeRide (fareCalculator ride)).2,
          heap := Function.update w.heap p ((w.heap p).setStatus DriverStatus.AVAILABLE) },
        (ride.completeRide (fareCalculator ride)).1) := by
  unfold RideManager.completeRide
  simp [Ride.completeRide, hd]

/-- C9: for a ride whose assigned driver `p` is registered in the driver
registry, after `RideManager::completeRide` the ride is `COMPLETED`, its fare is
what the supplied calculator computed on the ride, the driver `p` is
`AVAILABLE`, and `getAvailableDrivers` for the vehicle type of `p` contains
`p`. -/
theorem completeRide_releases_driver {β : Type} (w : World β) (ride : Ride β)
    (fareCalculator : Ride β → β) (p : DriverPtr) (hd : ride.driver = some p)
    (hreg : ∃ id, (id, p) ∈ w.drivers) :
    (RideManager.completeRide w ride fareCalculator).2.status = RideStatus.COMPLETED ∧
      (RideManager.completeRide w ride fareCalculator).2.fare = fareCalculator ride ∧
      (RideManager.completeRide w ride fareCalculator).2.driver = some p ∧
      ((RideManager.completeRide w ride fareCalculator).1.heap p).status =
        DriverStatus.AVAILABLE ∧
      p ∈ DriverManager.getAvailableDrivers (RideManager.completeRide w ride fareCalculator).1
        ((RideManager.completeRide w ride fareCalculator).1.heap p).vehicleType := by
  rw [completeRide_of_driver w ride fareCalculator p hd]
  refine ⟨rfl, rfl, hd, ?_, ?_⟩
  · simp [Driver.setStatus]
  · rw [mem_getAvailableDrivers]
    exact ⟨hreg, by simp [Driver.setStatus], rfl⟩

/-- Witness for C9: the confirmed ride of the demonstration, bound to the
registered driver `D1`, completed with the base fare under a 1.2 surge. -/
theorem completeRide_releases_driver_witness :
    demoRideConfirmed.driver = some 0 ∧ (∃ id, (id, 0) ∈ demoWorldConfirmed.drivers) ∧
      (RideManager.completeRide demoWorldConfirmed demoRideConfirmed
        ((FareCalculator.surge FareCalculator.base 1.2).calculateFare Rat.sqrt)).2.status =
        RideStatus.COMPLETED ∧
      ((RideManager.completeRide demoWorldConfirmed demoRideConfirmed
        ((FareCalculator.surge FareCalculator.base 1.2).calculateFare Rat.sqrt)).1.heap
          0).status = DriverStatus.AVAILABLE :=
  have hreg : ∃ id, (id, 0) ∈ demoWorldConfirmed.drivers :=
    ⟨"D1", by simp [demoWorldConfirmed, demoWorld]⟩
  have h := completeRide_releases_driver demoWorldConfirmed demoRideConfirmed
    ((FareCalculator.surge FareCalculator.base 1.2).calculateFare Rat.sqrt) 0 rfl hreg
  ⟨rfl, hreg, h.1, h.2.2.2.1⟩

variable {α : Type} [LinearOrderedField α]

end Completion

/-! ## The pricing pipeline (C11, C12, C13, C14) -/

section Pricing

variable {α : Type} [LinearOrderedField α]

theorem calculateFare_base (sqrt : α → α) (ride : Ride α) :
    FareCalculator.base.calculateFare sqrt ride = BaseFareCalculator.calculateFare sqrt ride :=
  rfl

theorem calculateFare_surge (sqrt : α → α) (comp : FareCalculator α) (mult : α)
    (ride : Ride α) :
    (FareCalculator.surge comp mult).calculateFare sqrt ride =
      mult * comp.calculateFare sqrt ride :=
  rfl

theorem calculateFare_discount (sqrt : α → α) (comp : FareCalculator α) (disc : α)
    (ride : Ride α) :
    (FareCalculator.discount comp disc).calculateFare sqrt ride =
      max 0 (comp.calculateFare sqrt ride - disc) :=
  rfl

/-- The base fare is at least the base amount of the mode, hence at least 30,
when `sqrt` returns no negative number. -/
theorem baseFare_ge_thirty (sqrt : α → α) (hsqrt : ∀ v, 0 ≤ sqrt v) (ride : Ride α) :
    30 ≤ BaseFareCalculator.calculateFare sqrt ride := by
  have hd : 0 ≤ ride.details.pickup.distanceTo sqrt ride.details.dropoff := hsqrt _
  unfold BaseFareCalculator.calculateFare
  by_cases hm : ride.details.rideType = RideType.CARPOOL
  · simp only [hm, if_true]
    nlinarith
  · simp only [hm, if_false]
    nlinarith

/-- The square root of 200 lies between 14.142 and 14.1422. -/
theorem sqrt_two_hundred_bounds (d : α) (h0 : 0 ≤ d) (h2 : d ^ 2 = 200) :
    14.142 < d ∧ d < 14.1422 := by
  constructor
  · by_contra h
    have h1 : d ≤ 14.142 := not_lt.1 h
    nlinarith
  · by_contra h
    have h1 : (14.1422 : α) ≤ d := not_lt.1 h
    nlinarith

/-- C11: in exact arithmetic, with `sqrt` the square root, for a `NORMAL` ride
from (0,0) to (10,10): the base calculator gives a fare within 0.01 of 216.77,
the base calculator under a surge decorator of factor 1.2 a fare within 0.01 of
260.13, and the base calculator under a discount decorator of 10 a fare within
0.01 of 206.77. -/
theorem demo_fares_match_spec_figures (sqrt : α → α)
    (hsqrt : ∀ v, 0 ≤ v → 0 ≤ sqrt v ∧ sqrt v ^ 2 = v) (ride : Ride α)
    (hp : ride.details.pickup = { x := 0, y := 0 })
    (hd : ride.details.dropoff = { x := 10, y := 10 })
    (hm : ride.details.rideType = RideType.NORMAL) :
    |FareCalculator.base.calculateFare sqrt ride - 216.77| < 0.01 ∧
      |(FareCalculator.surge FareCalculator.base 1.2).calculateFare sqrt ride - 260.13| <
        0.01 ∧
      |(FareCalculator.discount FareCalculator.base 10).calculateFare sqrt ride - 206.77| <
        0.01 := by
  have hv : ((0 : α) - 10) ^ 2 + (0 - 10) ^ 2 = 200 := by norm_num
  obtain ⟨h0, h2⟩ := hsqrt 200 (by norm_num)
  obtain ⟨hlo, hhi⟩ := sqrt_two_hundred_bounds (sqrt 200) h0 h2
  have hb : BaseFareCalculator.calculateFare sqrt ride = 40 + sqrt 200 * 12.5 := by
    have hs : sqrt ((0 - 10) ^ 2 + (0 - 10) ^ 2) = sqrt 200 := by rw [hv]
    unfold BaseFareCalculator.calculateFare Location.distanceTo
    simp only [hp, hd, hm, hs]
    rw [if_neg (by decide)]
  rw [calculateFare_surge, calculateFare_discount, calculateFare_base, hb]
  have hmax : max (0 : α) (40 + sqrt 200 * 12.5 - 10) = 40 + sqrt 200 * 12.5 - 10 :=
    max_eq_right (by nlinarith)
  rw [hmax]
  refine ⟨abs_lt.2 ⟨?_, ?_⟩, abs_lt.2 ⟨?_, ?_⟩, abs_lt.2 ⟨?_, ?_⟩⟩ <;> norm_num <;> linarith

/-- Witness for C11: the real numbers with the real square root, and the ride
`ride1` of `main`. -/
theorem demo_fares_match_spec_figures_witness :
    (∀ v : ℝ, 0 ≤ v → 0 ≤ Real.sqrt v ∧ Real.sqrt v ^ 2 = v) ∧
      |FareCalculator.base.calculateFare Real.sqrt
          (Ride.create "RIDE_1" none
            { pickup := { x := 0, y := 0 }, dropoff := { x := 10, y := 10 },
              vehicleType := VehicleType.SEDAN, rideType := RideType.NORMAL }) - 216.77| <
        0.01 ∧
      |(FareCalculator.surge FareCalculator.base 1.2).calculateFare Real.sqrt
          (Ride.create "RIDE_1" none
            { pickup := { x := 0, y := 0 }, dropoff := { x := 10, y := 10 },
              vehicleType := VehicleType.SEDAN, rideType := RideType.NORMAL }) - 260.13| <
        0.01 ∧
      |(FareCalculator.discount FareCalculator.base 10).calculateFare Real.sqrt
          (Ride.create "RIDE_1" none
            { pickup := { x := 0, y := 0 }, dropoff := { x := 10, y := 10 },
              vehicleType := VehicleType.SEDAN, rideType := RideType.NORMAL }) - 206.77| <
        0.01 :=
  have hsqrt : ∀ v : ℝ, 0 ≤ v → 0 ≤ Real.sqrt v ∧ Real.sqrt v ^ 2 = v :=
    fun v hv => ⟨Real.sqrt_nonneg v, Real.sq_sqrt hv⟩
  ⟨hsqrt,
    demo_fares_match_spec_figures Real.sqrt hsqrt
      (Ride.create "RIDE_1" none
        { pickup := { x := 0, y := 0 }, dropoff := { x := 10, y := 10 },
          vehicleType := VehicleType.SEDAN, rideType := RideType.NORMAL }) rfl rfl rfl⟩

/-- C12: whatever calculator is wrapped, whatever the discount (of any sign and
size) and whatever the ride, `DiscountDecorator::calculateFare` returns the
larger of 0 and the wrapped fare minus the discount, which is not negative; so
does a discount decorator at the top of any pipeline of the class hierarchy. -/
theorem discount_is_clamped_difference (component : Ride α → α) (discount : α)
    (ride : Ride α) (sqrt : α → α) (comp : FareCalculator α) :
    DiscountDecorator.calculateFare component discount ride =
        max 0 (component ride - discount) ∧
      0 ≤ DiscountDecorator.calculateFare component discount ride ∧
      (FareCalculator.discount comp discount).calculateFare sqrt ride =
        max 0 (comp.calculateFare sqrt ride - discount) ∧
      0 ≤ (FareCalculator.discount comp discount).calculateFare sqrt ride :=
  ⟨rfl, le_max_left _ _, rfl, le_max_left _ _⟩

/-- C13: when `sqrt` returns no negative number, every pipeline made of the
base calculator under any number of surge decorators with a factor above 0 and
discount decorators with any amount, in any order, computes a fare that is not
negative, for every ride. -/
theorem pipeline_fare_nonneg (sqrt : α → α) (hsqrt : ∀ v, 0 ≤ sqrt v)
    (fc : FareCalculator α) (hpos : fc.SurgesPositive) (ride : Ride α) :
    0 ≤ fc.calculateFare sqrt ride := by
  induction fc with
  | base =>
    rw [calculateFare_base]
    exact le_trans (by norm_num) (baseFare_ge_thirty sqrt hsqrt ride)
  | surge comp mult ih =>
    rw [calculateFare_surge]
    exact mul_nonneg (le_of_lt hpos.1) (ih hpos.2)
  | discount comp disc _ =>
    rw [calculateFare_discount]
    exact le_max_left _ _

/-- Witness for C13: over the real numbers, the base fare of `ride1` of `main`
under a surge of 1.2 and then a discount of 10. -/
theorem pipeline_fare_nonneg_witness :
    (∀ v : ℝ, 0 ≤ Real.sqrt v) ∧
      (FareCalculator.discount (FareCalculator.surge FareCalculator.base (1.2 : ℝ))
        10).SurgesPositive ∧
      0 ≤ (FareCalculator.discount (FareCalculator.surge FareCalculator.base (1.2 : ℝ))
          10).calculateFare Real.sqrt
        (Ride.create "RIDE_1" none
          { pickup := { x := 0, y := 0 }, dropoff := { x := 10, y := 10 },
            vehicleType := VehicleType.SEDAN, rideType := RideType.NORMAL }) :=
  have hpos : (FareCalculator.discount (FareCalculator.surge FareCalculator.base (1.2 : ℝ))
      10).SurgesPositive := ⟨by norm_num, trivial⟩
  ⟨Real.sqrt_nonneg, hpos, pipeline_fare_nonneg Real.sqrt Real.sqrt_nonneg _ hpos _⟩

/-- C14: when `sqrt` returns no negative number there are a ride, a surge
factor above 0 and a discount for which the discount decorator around the
surge decorator around the base calculator and the surge decorator around the
discount decorator around the base calculator compute different fares: on
`ride1` of `main` with factor 1.2 and discount 10 the two differ by 2. -/
theorem decorator_order_matters (sqrt : α → α) (hsqrt : ∀ v, 0 ≤ sqrt v) :
    ∃ (ride : Ride α) (mult disc : α), 0 < mult ∧
      (FareCalculator.discount (FareCalculator.surge FareCalculator.base mult)
          disc).calculateFare sqrt ride ≠
        (FareCalculator.surge (FareCalculator.discount FareCalculator.base disc)
          mult).calculateFare sqrt ride ∧
      (FareCalculator.discount (FareCalculator.surge FareCalculator.base mult)
          disc).calculateFare sqrt ride -
        (FareCalculator.surge (FareCalculator.discount FareCalculator.base disc)
          mult).calculateFare sqrt ride = 2 := by
  refine ⟨Ride.create "RIDE_1" none
    { pickup := { x := 0, y := 0 }, dropoff := { x := 10, y := 10 },
      vehicleType := VehicleType.SEDAN, rideType := RideType.NORMAL }, 1.2, 10,
    by norm_num, ?_⟩
  have hb := baseFare_ge_thirty sqrt hsqrt (Ride.create "RIDE_1" none
    { pickup := { x := 0, y := 0 }, dropoff := { x := 10, y := 10 },
      vehicleType := VehicleType.SEDAN, rideType := RideType.NORMAL })
  rw [calculateFare_discount, calculateFare_surge, calculateFare_surge,
    calculateFare_discount, calculateFare_base]
  rw [max_eq_right (by linarith), max_eq_right (by linarith)]
  constructor
  · intro h
    linarith
  · ring

/-- Witness for C14: the real numbers with the real square root. -/
theorem decorator_order_matters_witness :
    (∀ v : ℝ, 0 ≤ Real.sqrt v) ∧
      ∃ (ride : Ride ℝ) (mult disc : ℝ), 0 < mult ∧
        (FareCalculator.discount (FareCalculator.surge FareCalculator.base mult)
            disc).calculateFare Real.sqrt ride ≠
          (FareCalculator.surge (FareCalculator.discount FareCalculator.base disc)
            mult).calculateFare Real.sqrt ride ∧
        (FareCalculator.discount (FareCalculator.surge FareCalculator.base mult)
            disc).calculateFare Real.sqrt ride -
          (FareCalculator.surge (FareCalculator.discount FareCalculator.base disc)
            mult).calculateFare Real.sqrt ride = 2 :=
  ⟨Real.sqrt_nonneg, decorator_order_matters Real.sqrt Real.sqrt_nonneg⟩

end Pricing

/-! ## Driver reference and observers of a ride (C15, C20) -/

section RideInvariants

variable {α : Type}

theorem status_ne_requested_iff (st : RideStatus) :
    st ≠ RideStatus.REQUESTED ↔
      st = RideStatus.CONFIRMED ∨ st = RideStatus.IN_PROGRESS ∨ st = RideStatus.COMPLETED := by
  cases st <;> simp

/-- Every ride of a trace but the first is past `REQUESTED`. -/
theorem rideTrace_status (ride : Ride α) (ops : List (RideOp α)) :
    ∀ r ∈ rideTrace ride ops, r = ride ∨ r.status ≠ RideStatus.REQUESTED := by
  induction ops generalizing ride with
  | nil =>
    intro r hr
    left
    simpa [rideTrace] using hr
  | cons op ops ih =>
    intro r hr
    rcases List.mem_cons.1 hr with h | h
    · exact Or.inl h
    · right
      rcases ih (op.apply ride) r h with h1 | h1
      · rw [h1, RideOp.apply_status]
        cases op <;> simp [RideOp.target]
      · exact h1

/-- A ride that has a driver and is past `REQUESTED` stays so under lifecycle
methods that bind no null driver. -/
theorem rideTrace_keeps_driver (ride : Ride α) (ops : List (RideOp α))
    (hd : ride.driver ≠ none) (hs : ride.status ≠ RideStatus.REQUESTED)
    (hops : ∀ op ∈ ops, op ≠ RideOp.assignDriver none) :
    ∀ r ∈ rideTrace ride ops, r.driver ≠ none ∧ r.status ≠ RideStatus.REQUESTED := by
  induction ops generalizing ride with
  | nil =>
    intro r hr
    have h : r = ride := by simpa [rideTrace] using hr
    rw [h]
    exact ⟨hd, hs⟩
  | cons op ops ih =>
    intro r hr
    rcases List.mem_cons.1 hr with h | h
    · rw [h]
      exact ⟨hd, hs⟩
    · refine ih (op.apply ride) ?_ ?_ (fun o ho => hops o (List.mem_cons_of_mem _ ho)) r h
      · cases op with
        | assignDriver drv =>
          cases drv with
          | none => exact absurd rfl (hops _ (List.mem_cons_self _ _))
          | some p => simp [RideOp.apply, Ride.assignDriver]
        | startRide => exact hd
        | completeRide fareAmount => exact hd
      · rw [RideOp.apply_status]
        cases op <;> simp [RideOp.target]

/-- C15, counterexample: `startRide` on the fresh ride of the demonstration
gives a ride that is `IN_PROGRESS` and has no driver, through
`Ride::startRide` and through `RideManager::startRide` alike. -/
theorem startRide_leaves_driver_null :
    demoRide.status = RideStatus.REQUESTED ∧ demoRide.driver = none ∧
      rideTrace demoRide [RideOp.startRide] = [demoRide, demoRide.startRide.1] ∧
      demoRide.startRide.1.status = RideStatus.IN_PROGRESS ∧
      demoRide.startRide.1.driver = none ∧
      (RideManager.startRide (demoWorld 0) demoRide).2.status = RideStatus.IN_PROGRESS ∧
      (RideManager.startRide (demoWorld 0) demoRide).2.driver = none :=
  ⟨rfl, rfl, rfl, rfl, rfl, rfl, rfl⟩

/-- C15, as amended: in every state reached from a fresh ride (`REQUESTED`, no
driver) by a finite sequence of `assignDriver`, `startRide` and `completeRide`,
a ride with a driver is `CONFIRMED`, `IN_PROGRESS` or `COMPLETED`.  The
converse holds too when the sequence is empty or begins with an `assignDriver`
and no `assignDriver` of it binds a null driver. -/
theorem driver_bound_iff_past_requested (ride : Ride α) (ops : List (RideOp α))
    (hst : ride.status = RideStatus.REQUESTED) (hdr : ride.driver = none) :
    (∀ r ∈ rideTrace ride ops, r.driver ≠ none →
        (r.status = RideStatus.CONFIRMED ∨ r.status = RideStatus.IN_PROGRESS ∨
          r.status = RideStatus.COMPLETED)) ∧
      ((ops = [] ∨ ∃ p rest, ops = RideOp.assignDriver (some p) :: rest) →
        (∀ op ∈ ops, op ≠ RideOp.assignDriver none) →
        ∀ r ∈ rideTrace ride ops, (r.driver ≠ none ↔
          (r.status = RideStatus.CONFIRMED ∨ r.status = RideStatus.IN_PROGRESS ∨
            r.status = RideStatus.COMPLETED))) := by
  constructor
  · intro r hr hd
    rw [← status_ne_requested_iff]
    rcases rideTrace_status ride ops r hr with h | h
    · rw [h] at hd
      exact absurd hdr hd
    · exact h
  · intro hshape hops r hr
    rw [← status_ne_requested_iff]
    have hfresh : ride.driver ≠ none ↔ ride.status ≠ RideStatus.REQUESTED := by
      rw [hst, hdr]
      simp
    rcases hshape with rfl | ⟨p, rest, rfl⟩
    · have h : r = ride := by simpa [rideTrace] using hr
      rw [h]
      exact hfresh
    · rcases List.mem_cons.1 hr with h | h
      · rw [h]
        exact hfresh
      · have hk := rideTrace_keeps_driver ((RideOp.assignDriver (some p)).apply ride) rest
          (by simp [RideOp.apply, Ride.assignDriver])
          (by simp [RideOp.apply, Ride.assignDriver])
          (fun o ho => hops o (List.mem_cons_of_mem _ ho)) r h
        exact ⟨fun _ => hk.2, fun _ => hk.1⟩

/-- Witness for C15: the fresh ride of the demonstration through
`assignDriver`, `startRide`, `completeRide`. -/
theorem driver_bound_iff_past_requested_witness :
    demoRide.status = RideStatus.REQUESTED ∧ demoRide.driver = none ∧
      (∀ r ∈ rideTrace demoRide
          [RideOp.assignDriver (some 0), RideOp.startRide, RideOp.completeRide 100],
        (r.driver ≠ none ↔
          (r.status = RideStatus.CONFIRMED ∨ r.status = RideStatus.IN_PROGRESS ∨
            r.status = RideStatus.COMPLETED))) :=
  ⟨rfl, rfl,
    (driver_bound_iff_past_requested demoRide
      [RideOp.assignDriver (some 0), RideOp.startRide, RideOp.completeRide 100] rfl rfl).2
      (Or.inr ⟨0, _, rfl⟩) (by simp)⟩

theorem attachObserver_foldl_observers (ride0 : Ride α) (obs : List RideObserver) :
    (obs.foldl Ride.attachObserver ride0).notifier.observers =
      ride0.notifier.observers ++ obs := by
  induction obs generalizing ride0 with
  | nil => simp
  | cons o obs ih =>
    rw [List.foldl_cons, ih]
    simp [Ride.attachObserver, Notifier.attach]

/-- C20: for a ride to which the observers `obs` were attached one after the
other with `attachObserver`, on top of those it already had, each of
`assignDriver`, `startRide` and `completeRide` calls `update` once per attached
observer, in attachment order, duplicates included, each time with the ride as
it is after the method has written to it: the new status, for `assignDriver`
the new driver, for `completeRide` the new fare. -/
theorem transitions_notify_observers_in_order (ride0 : Ride α) (obs : List RideObserver)
    (drv : Option DriverPtr) (fareAmount : α) :
    ((obs.foldl Ride.attachObserver ride0).assignDriver drv).2 =
        (ride0.notifier.observers ++ obs).map
          (fun o => Output.update o ((obs.foldl Ride.attachObserver ride0).assignDriver drv).1) ∧
      ((obs.foldl Ride.attachObserver ride0).assignDriver drv).1.status =
        RideStatus.CONFIRMED ∧
      ((obs.foldl Ride.attachObserver ride0).assignDriver drv).1.driver = drv ∧
      (obs.foldl Ride.attachObserver ride0).startRide.2 =
        (ride0.notifier.observers ++ obs).map
          (fun o => Output.update o (obs.foldl Ride.attachObserver ride0).startRide.1) ∧
      (obs.foldl Ride.attachObserver ride0).startRide.1.status = RideStatus.IN_PROGRESS ∧
      ((obs.foldl Ride.attachObserver ride0).completeRide fareAmount).2 =
        (ride0.notifier.observers ++ obs).map
          (fun o => Output.update o
            ((obs.foldl Ride.attachObserver ride0).completeRide fareAmount).1) ∧
      ((obs.foldl Ride.attachObserver ride0).completeRide fareAmount).1.status =
        RideStatus.COMPLETED ∧
      ((obs.foldl Ride.attachObserver ride0).completeRide fareAmount).1.fare = fareAmount := by
  have h := attachObserver_foldl_observers ride0 obs
  refine ⟨?_, rfl, rfl, ?_, rfl, ?_, rfl, rfl⟩
  · simp only [Ride.assignDriver, Notifier.notify]
    rw [h]
  · simp only [Ride.startRide, Notifier.notify]
    rw [h]
  · simp only [Ride.completeRide, Notifier.notify]
    rw [h]

end RideInvariants

/-! ## The registries (C17, C18) -/

section Registries

variable {β : Type}

theorem mem_mapInsert (k : String) (v : β) (m : List (String × β)) (e : String × β)
    (h : e ∈ mapInsert k v m) : e = (k, v) ∨ e ∈ m := by
  induction m with
  | nil => simpa [mapInsert] using h
  | cons x m ih =>
    obtain ⟨k1, v1⟩ := x
    unfold mapInsert at h
    by_cases h1 : k < k1
    · simp only [h1, if_true] at h
      rcases List.mem_cons.1 h with h | h
      · exact Or.inl h
      · exact Or.inr h
    · by_cases h2 : k = k1
      · subst h2
        simp only [lt_irrefl, if_true, if_false] at h
        rcases List.mem_cons.1 h with h | h
        · exact Or.inl h
        · exact Or.inr (List.mem_cons_of_mem _ h)
      · simp only [h1, h2, if_false] at h
        rcases List.mem_cons.1 h with h | h
        · right
          rw [h]
          exact List.mem_cons_self _ _
        · rcases ih h with h | h
          · exact Or.inl h
          · exact Or.inr (List.mem_cons_of_mem _ h)

/-- Assignment to a map entry keeps the keys strictly ascending. -/
theorem mapInsert_sorted (k : String) (v : β) (m : List (String × β))
    (h : m.Pairwise (fun a b => a.1 < b.1)) :
    (mapInsert k v m).Pairwise (fun a b => a.1 < b.1) := by
  induction m with
  | nil => simp [mapInsert]
  | cons x m ih =>
    obtain ⟨k1, v1⟩ := x
    rw [List.pairwise_cons] at h
    unfold mapInsert
    by_cases h1 : k < k1
    · simp only [h1, if_true]
      refine List.pairwise_cons.2 ⟨?_, List.pairwise_cons.2 h⟩
      intro e he
      rcases List.mem_cons.1 he with he | he
      · rw [he]
        exact h1
      · exact lt_trans h1 (h.1 e he)
    · by_cases h2 : k = k1
      · subst h2
        simp only [lt_irrefl, if_true, if_false]
        exact List.pairwise_cons.2 ⟨fun e he => h.1 e he, h.2⟩
      · simp only [h1, h2, if_false]
        have h3 : k1 < k := by
          rcases lt_trichotomy k k1 with h | h | h
          · exact absurd h h1
          · exact absurd h h2
          · exact h
        refine List.pairwise_cons.2 ⟨?_, ih h.2⟩
        intro e he
        rcases mem_mapInsert k v m e he with he | he
        · rw [he]
          exact h3
        · exact h.1 e he

theorem mapFind_mapInsert_self (k : String) (v : β) (m : List (String × β)) :
    mapFind k (mapInsert k v m) = some v := by
  induction m with
  | nil => simp [mapInsert, mapFind]
  | cons x m ih =>
    obtain ⟨k1, v1⟩ := x
    unfold mapInsert
    by_cases h1 : k < k1
    · simp [h1, mapFind]
    · by_cases h2 : k = k1
      · simp [h2, mapFind]
      · simp [h1, h2, mapFind, ih]

theorem mapFind_mapInsert_ne (k k0 : String) (v : β) (m : List (String × β)) (h : k0 ≠ k) :
    mapFind k0 (mapInsert k v m) = mapFind k0 m := by
  induction m with
  | nil => simp [mapInsert, mapFind, h]
  | cons x m ih =>
    obtain ⟨k1, v1⟩ := x
    unfold mapInsert
    by_cases h1 : k < k1
    · simp [h1, mapFind, h]
    · by_cases h2 : k = k1
      · subst h2
        simp [mapFind, h]
      · simp only [h1, h2, if_false]
        unfold mapFind
        rw [ih]

theorem mapInsert_mapInsert (k : String) (v1 v2 : β) (m : List (String × β)) :
    mapInsert k v2 (mapInsert k v1 m) = mapInsert k v2 m := by
  induction m with
  | nil => simp [mapInsert]
  | cons x m ih =>
    obtain ⟨k1, u⟩ := x
    by_cases h1 : k < k1
    · simp [mapInsert, h1]
    · by_cases h2 : k = k1
      · subst h2
        simp [mapInsert]
      · simp [mapInsert, h1, h2, ih]

theorem mapFind_none_of_not_mem (k : String) (m : List (String × β))
    (h : ∀ e ∈ m, e.1 ≠ k) : mapFind k m = none := by
  induction m with
  | nil => rfl
  | cons x m ih =>
    obtain ⟨k1, v1⟩ := x
    unfold mapFind
    have h1 : k ≠ k1 := fun hk => h (k1, v1) (List.mem_cons_self _ _) hk.symm
    simp only [h1, if_false]
    exact ih (fun e he => h e (List.mem_cons_of_mem _ he))

theorem wellFormed_of_empty (w : World β) (h : w.drivers = []) :
    DriverManager.WellFormed w := by
  unfold DriverManager.WellFormed
  rw [h]
  simp

theorem wellFormed_addDriver (w : World β) (p : DriverPtr)
    (h : DriverManager.WellFormed w) :
    DriverManager.WellFormed (DriverManager.addDriver w p) := by
  refine ⟨mapInsert_sorted _ _ _ h.1, ?_⟩
  intro e he
  rcases mem_mapInsert _ _ _ e he with he | he
  · rw [he]
    rfl
  · exact h.2 e he

theorem foldl_addDriver_heap (ps : List DriverPtr) (w : World β) :
    (ps.foldl DriverManager.addDriver w).heap = w.heap := by
  induction ps generalizing w with
  | nil => rfl
  | cons p ps ih =>
    rw [List.foldl_cons, ih]
    rfl

theorem wellFormed_foldl_addDriver (ps : List DriverPtr) (w : World β)
    (h : DriverManager.WellFormed w) :
    DriverManager.WellFormed (ps.foldl DriverManager.addDriver w) := by
  induction ps generalizing w with
  | nil => exact h
  | cons p ps ih => exact ih _ (wellFormed_addDriver w p h)

/-- Well-formedness depends only on the registry and on the ids of the
driver objects. -/
theorem wellFormed_congr (w w' : World β) (hd : w'.drivers = w.drivers)
    (hid : ∀ p, (w'.heap p).id = (w.heap p).id) (h : DriverManager.WellFormed w) :
    DriverManager.WellFormed w' := by
  unfold DriverManager.WellFormed
  rw [hd]
  exact ⟨h.1, fun e he => by rw [hid]; exact h.2 e he⟩

/-- In a well-formed registry the ids of the available drivers, in the order
`getAvailableDrivers` lists them, are strictly ascending. -/
theorem getAvailableDrivers_ids_ascending (w : World β) (type : VehicleType)
    (hwf : DriverManager.WellFormed w) :
    ((DriverManager.getAvailableDrivers w type).map (fun p => (w.heap p).id)).Pairwise
      (fun a b => a < b) := by
  unfold DriverManager.getAvailableDrivers
  rw [List.map_map, List.pairwise_map]
  have hsub : (w.drivers.filter (fun e => (w.heap e.2).isAvailable &&
      decide ((w.heap e.2).vehicleType = type))).Pairwise (fun a b => a.1 < b.1) :=
    hwf.1.sublist (List.filter_sublist _)
  refine hsub.imp_of_mem ?_
  intro a b ha hb hab
  have ha1 := hwf.2 a (List.mem_of_mem_filter ha)
  have hb1 := hwf.2 b (List.mem_of_mem_filter hb)
  simp only [Function.comp]
  rw [ha1, hb1]
  exact hab

theorem getAvailableDrivers_nodup (w : World β) (type : VehicleType)
    (hwf : DriverManager.WellFormed w) :
    (DriverManager.getAvailableDrivers w type).Nodup := by
  have h := getAvailableDrivers_ids_ascending w type hwf
  have h1 : ((DriverManager.getAvailableDrivers w type).map
      (fun p => (w.heap p).id)).Nodup := h.imp (fun hab => ne_of_lt hab)
  exact List.Nodup.of_map _ h1

theorem demoWorld_wellFormed (r : Nat) : DriverManager.WellFormed (demoWorld r) := by
  refine ⟨?_, ?_⟩
  · simp [demoWorld]
    decide
  · intro e he
    have h : e = ("D1", 0) ∨ e = ("D2", 1) ∨ e = ("D3", 2) := by
      simpa [demoWorld] using he
    rcases h with rfl | rfl | rfl <;> rfl

/-- C17: in every state of the driver registry and for every vehicle type,
the list `getAvailableDrivers` returns holds exactly the registered drivers
that are `AVAILABLE` and of that type, each of them once, in strictly ascending
order of driver id.  The method is a function of the state that returns no new
state: the registry and the drivers are as before. -/
theorem getAvailableDrivers_lists_available_by_id (w : World β) (type : VehicleType)
    (hwf : DriverManager.WellFormed w) :
    (∀ p, p ∈ DriverManager.getAvailableDrivers w type ↔
        (∃ id, (id, p) ∈ w.drivers) ∧ (w.heap p).status = DriverStatus.AVAILABLE ∧
          (w.heap p).vehicleType = type) ∧
      (∀ p, (DriverManager.getAvailableDrivers w type).count p ≤ 1) ∧
      ((DriverManager.getAvailableDrivers w type).map (fun p => (w.heap p).id)).Pairwise
        (fun a b => a < b) :=
  ⟨mem_getAvailableDrivers w type,
    fun p => List.nodup_iff_count_le_one.1 (getAvailableDrivers_nodup w type hwf) p,
    getAvailableDrivers_ids_ascending w type hwf⟩

/-- Witness for C17: the registry of the demonstration, where the available
sedan drivers are `D1` and `D3`, in this order. -/
theorem getAvailableDrivers_lists_available_by_id_witness :
    DriverManager.WellFormed (demoWorld 0) ∧
      DriverManager.getAvailableDrivers (demoWorld 0) VehicleType.SEDAN = [0, 2] ∧
      (∀ p, p ∈ DriverManager.getAvailableDrivers (demoWorld 0) VehicleType.SEDAN ↔
        (∃ id, (id, p) ∈ (demoWorld 0).drivers) ∧
          ((demoWorld 0).heap p).status = DriverStatus.AVAILABLE ∧
          ((demoWorld 0).heap p).vehicleType = VehicleType.SEDAN) ∧
      (∀ p, (DriverManager.getAvailableDrivers (demoWorld 0) VehicleType.SEDAN).count p ≤ 1) ∧
      ((DriverManager.getAvailableDrivers (demoWorld 0) VehicleType.SEDAN).map
        (fun p => ((demoWorld 0).heap p).id)).Pairwise (fun a b => a < b) :=
  ⟨demoWorld_wellFormed 0, rfl,
    getAvailableDrivers_lists_available_by_id (demoWorld 0) VehicleType.SEDAN
      (demoWorld_wellFormed 0)⟩

theorem foldl_addDriver_keys (ps : List DriverPtr) (w : World β) :
    ∀ e ∈ (ps.foldl DriverManager.addDriver w).drivers,
      e ∈ w.drivers ∨ ∃ p ∈ ps, e.1 = (w.heap p).id := by
  induction ps generalizing w with
  | nil =>
    intro e he
    exact Or.inl he
  | cons p ps ih =>
    intro e he
    rw [List.foldl_cons] at he
    rcases ih (DriverManager.addDriver w p) e he with h | ⟨q, hq, h⟩
    · rcases mem_mapInsert _ _ _ e h with h | h
      · right
        exact ⟨p, List.mem_cons_self _ _, by rw [h]⟩
      · exact Or.inl h
    · right
      exact ⟨q, List.mem_cons_of_mem _ hq, h⟩

theorem foldl_addRider_keys (rs : List (Rider β)) (w : World β) :
    ∀ e ∈ (rs.foldl RiderManager.addRider w).riders,
      e ∈ w.riders ∨ ∃ r ∈ rs, e.1 = r.id := by
  induction rs generalizing w with
  | nil =>
    intro e he
    exact Or.inl he
  | cons r rs ih =>
    intro e he
    rw [List.foldl_cons] at he
    rcases ih (RiderManager.addRider w r) e he with h | ⟨q, hq, h⟩
    · rcases mem_mapInsert _ _ _ e h with h | h
      · right
        exact ⟨r, List.mem_cons_self _ _, by rw [h]⟩
      · exact Or.inl h
    · right
      exact ⟨q, List.mem_cons_of_mem _ hq, h⟩

/-- C18: registration is an idempotent upsert by identity.  After
`addDriver(d)`, `getDriver` of the id of `d` returns `d` and `getDriver` of
every other id returns what it did; `addDriver(d)` twice gives the registry
that `addDriver(d)` once gives; `addDriver` of a second driver with the id of
the first gives the registry holding the second alone under that id; and in a
registry filled from empty, `getDriver` of an id that none of the registered
drivers has returns nothing.  `addRider` and `getRider` behave the same. -/
theorem registration_is_idempotent_upsert (w : World β) (p q : DriverPtr) (r r2 : Rider β)
    (id : String) :
    DriverManager.getDriver (DriverManager.addDriver w p) (w.heap p).id = some p ∧
      (id ≠ (w.heap p).id →
        DriverManager.getDriver (DriverManager.addDriver w p) id =
          DriverManager.getDriver w id) ∧
      DriverManager.addDriver (DriverManager.addDriver w p) p = DriverManager.addDriver w p ∧
      ((w.heap q).id = (w.heap p).id →
        DriverManager.addDriver (DriverManager.addDriver w p) q =
            DriverManager.addDriver w q ∧
          DriverManager.getDriver (DriverManager.addDriver (DriverManager.addDriver w p) q)
            (w.heap p).id = some q) ∧
      (∀ ps : List DriverPtr, w.drivers = [] → (∀ x ∈ ps, (w.heap x).id ≠ id) →
        DriverManager.getDriver (ps.foldl DriverManager.addDriver w) id = none) ∧
      RiderManager.getRider (RiderManager.addRider w r) r.id = some r ∧
      (id ≠ r.id →
        RiderManager.getRider (RiderManager.addRider w r) id = RiderManager.getRider w id) ∧
      RiderManager.addRider (RiderManager.addRider w r) r = RiderManager.addRider w r ∧
      (r2.id = r.id →
        RiderManager.addRider (RiderManager.addRider w r) r2 = RiderManager.addRider w r2 ∧
          RiderManager.getRider (RiderManager.addRider (RiderManager.addRider w r) r2) r.id =
            some r2) ∧
      (∀ rs : List (Rider β), w.riders = [] → (∀ x ∈ rs, x.id ≠ id) →
        RiderManager.getRider (rs.foldl RiderManager.addRider w) id = none) := by
  refine ⟨mapFind_mapInsert_self _ _ _, fun h => mapFind_mapInsert_ne _ _ _ _ h, ?_, ?_, ?_,
    mapFind_mapInsert_self _ _ _, fun h => mapFind_mapInsert_ne _ _ _ _ h, ?_, ?_, ?_⟩
  · simp only [DriverManager.addDriver, mapInsert_mapInsert]
  · intro h
    have e : DriverManager.addDriver (DriverManager.addDriver w p) q =
        DriverManager.addDriver w q := by
      simp only [DriverManager.addDriver, h, mapInsert_mapInsert]
    refine ⟨e, ?_⟩
    rw [e, ← h]
    exact mapFind_mapInsert_self _ _ _
  · intro ps hempty hne
    refine mapFind_none_of_not_mem _ _ ?_
    intro e he
    rcases foldl_addDriver_keys ps w e he with h | ⟨x, hx, h⟩
    · rw [hempty] at h
      cases h
    · rw [h]
      exact hne x hx
  · simp only [RiderManager.addRider, mapInsert_mapInsert]
  · intro h
    have e : RiderManager.addRider (RiderManager.addRider w r) r2 =
        RiderManager.addRider w r2 := by
      simp only [RiderManager.addRider, h, mapInsert_mapInsert]
    refine ⟨e, ?_⟩
    rw [e, ← h]
    exact mapFind_mapInsert_self _ _ _
  · intro rs hempty hne
    refine mapFind_none_of_not_mem _ _ ?_
    intro e he
    rcases foldl_addRider_keys rs w e he with h | ⟨x, hx, h⟩
    · rw [hempty] at h
      cases h
    · rw [h]
      exact hne x hx

end Registries

/-! ## The order of the picks under rejections, in exact arithmetic -/

section PickOrder

variable {α : Type} [LinearOrderedField α]

/-- An element that is strictly nearer than everything before it and at least
as near as everything after it comes first in the stable sort. -/
theorem sortedByDistance_split (sqrt : α → α) (heap : DriverHeap α) (pickup : Location α)
    (pre : List DriverPtr) (d : DriverPtr) (post : List DriverPtr)
    (hpre : ∀ x ∈ pre, pickup.distanceTo sqrt (heap d).location <
      pickup.distanceTo sqrt (heap x).location)
    (hpost : ∀ x ∈ post, pickup.distanceTo sqrt (heap d).location ≤
      pickup.distanceTo sqrt (heap x).location) :
    sortedByDistance sqrt heap pickup (pre ++ d :: post) =
      d :: sortedByDistance sqrt heap pickup (pre ++ post) := by
  unfold sortedByDistance
  induction pre with
  | nil => exact List.insertionSort_cons _ hpost
  | cons x pre ih =>
    have hx : ¬ pickup.distanceTo sqrt (heap x).location ≤
        pickup.distanceTo sqrt (heap d).location :=
      not_le.2 (hpre x (List.mem_cons_self _ _))
    have e := ih (fun y hy => hpre y (List.mem_cons_of_mem _ hy))
    show List.orderedInsert _ x (List.insertionSort _ (pre ++ d :: post)) =
      d :: List.orderedInsert _ x (List.insertionSort _ (pre ++ post))
    rw [e]
    exact if_neg hx

theorem filter_ne_of_split (pre : List DriverPtr) (d : DriverPtr) (post : List DriverPtr)
    (hnd : (pre ++ d :: post).Nodup) :
    (pre ++ d :: post).filter (fun x => x != d) = pre ++ post := by
  have h := List.nodup_middle.1 hnd
  rw [List.nodup_cons] at h
  have hpre : ∀ x ∈ pre, (x != d) = true := by
    intro x hx
    simp only [bne_iff_ne]
    rintro rfl
    exact h.1 (List.mem_append_left _ hx)
  have hpost : ∀ x ∈ post, (x != d) = true := by
    intro x hx
    simp only [bne_iff_ne]
    rintro rfl
    exact h.1 (List.mem_append_right _ hx)
  rw [List.filter_append, List.filter_cons]
  simp only [bne_self_eq_false, Bool.false_eq_true, if_false]
  rw [List.filter_eq_self.2 hpre, List.filter_eq_self.2 hpost]

/-- Where the driver the nearest-driver strategy picks stands in the pool. -/
theorem nearest_pick_split (sqrt : α → α) (dblMax : α) (heap : DriverHeap α)
    (pickup : Location α) (pool : List DriverPtr) (d : DriverPtr)
    (h : NearestDriverStrategy.matchDriver sqrt dblMax heap pickup pool = some d) :
    ∃ pre post, pool = pre ++ d :: post ∧
      (∀ x ∈ pre, pickup.distanceTo sqrt (heap d).location <
        pickup.distanceTo sqrt (heap x).location) ∧
      ∀ x ∈ post, pickup.distanceTo sqrt (heap d).location ≤
        pickup.distanceTo sqrt (heap x).location := by
  rcases nearest_matchDriver_cases sqrt dblMax heap pickup pool with
    ⟨heq, _⟩ | ⟨pre, d1, post, hl, heq, _, hpre, hpost⟩
  · rw [heq] at h
    cases h
  · rw [heq] at h
    cases h
    exact ⟨pre, post, hl, hpre, hpost⟩

/-- A successful run of the dispatch loop under the nearest-driver strategy
that has drawn `k + 1` random numbers has bound the candidate at index `k` of
the pool sorted by distance. -/
theorem assignLoop_nearest_success (sqrt : α → α) (dblMax : α) (ride : Ride α) (fuel : Nat) :
    ∀ (k : Nat) (pool : List DriverPtr) (w w' : World α) (ride' : Ride α),
      w.matchingStrategy = NearestDriverStrategy.matchDriver sqrt dblMax → pool.Nodup →
      RideManager.assignLoop fuel w ride pool = some (true, w', ride') →
      w'.randCalls = w.randCalls + k + 1 →
      ride' = (ride.assignDriver
        (sortedByDistance sqrt w.heap ride.details.pickup pool)[k]?).1 := by
  induction fuel with
  | zero =>
    intro k pool w w' ride' _ _ h _
    rw [assignLoop_zero] at h
    cases h
  | succ n ih =>
    intro k pool w w' ride' hs hnd h hcalls
    cases hm : w.matchingStrategy w.heap ride.details.pickup pool with
    | none =>
      rw [assignLoop_abstain n w ride pool hm] at h
      simp at h
    | some d =>
      by_cases hne : pool = []
      · subst hne
        rw [assignLoop_empty] at h
        simp at h
      · have hm1 := hm
        rw [hs] at hm1
        obtain ⟨pre, post, hl, hpre, hpost⟩ :=
          nearest_pick_split sqrt dblMax w.heap ride.details.pickup pool d hm1
        have hsort := sortedByDistance_split sqrt w.heap ride.details.pickup pre d post
          hpre hpost
        by_cases ha : w.rand w.randCalls % 100 < 60
        · rw [assignLoop_accept n w ride pool d hne hm ha] at h
          simp only [Option.some.injEq, Prod.mk.injEq, true_and] at h
          obtain ⟨hw, hr⟩ := h
          have hk : k = 0 := by
            rw [← hw] at hcalls
            simp only at hcalls
            omega
          rw [← hr, hl, hsort, hk, List.getElem?_cons_zero]
        · rw [assignLoop_reject n w ride pool d hne hm ha] at h
          obtain ⟨_, _, _, _, _, _, h7⟩ := assignLoop_inv n _ ride _ true w' ride' h
          obtain ⟨_, _, _, _, _, _, hlt, _⟩ := h7 rfl
          simp only at hlt
          obtain ⟨j, rfl⟩ : ∃ j, k = j + 1 := ⟨k - 1, by omega⟩
          have hfilter : pool.filter (fun x => x != d) = pre ++ post := by
            rw [hl]
            exact filter_ne_of_split pre d post (hl ▸ hnd)
          have hnd1 : (pre ++ post).Nodup := by
            rw [← hfilter]
            exact hnd.filter _
          rw [hfilter] at h
          have e := ih j (pre ++ post)
            { w with
              randCalls := w.randCalls + 1,
              out := w.out ++ [Output.rejected (w.heap d).id] }
            w' ride' hs hnd1 h (by simp only; omega)
          rw [e, hl, hsort, List.getElem?_cons_succ]

/-- Under the nearest-driver strategy, when every candidate of the pool is
nearer than `dblMax`, `k` rejections followed by an acceptance make the
dispatch loop bind the candidate at index `k` of the pool sorted by distance,
after `k + 1` draws. -/
theorem assignLoop_nearest_kth (sqrt : α → α) (dblMax : α) (ride : Ride α) (k : Nat) :
    ∀ (pool : List DriverPtr) (w : World α) (fuel : Nat),
      w.matchingStrategy = NearestDriverStrategy.matchDriver sqrt dblMax → pool.Nodup →
      (∀ p ∈ pool, ride.details.pickup.distanceTo sqrt (w.heap p).location < dblMax) →
      k < pool.length →
      (∀ i, i < k → ¬ w.rand (w.randCalls + i) % 100 < 60) →
      w.rand (w.randCalls + k) % 100 < 60 →
      pool.length < fuel →
      ∃ w', RideManager.assignLoop fuel w ride pool =
          some (true, w', (ride.assignDriver
            (sortedByDistance sqrt w.heap ride.details.pickup pool)[k]?).1) ∧
        w'.randCalls = w.randCalls + k + 1 := by
  induction k with
  | zero =>
    intro pool w fuel hs _ hnear hk _ hacc hf
    obtain ⟨n, rfl⟩ : ∃ n, fuel = n + 1 := ⟨fuel - 1, by omega⟩
    have hne : pool ≠ [] := by
      rintro rfl
      simp at hk
    rcases nearest_matchDriver_cases sqrt dblMax w.heap ride.details.pickup pool with
      ⟨_, hall⟩ | ⟨pre, d, post, hl, heq, _, hpre, hpost⟩
    · obtain ⟨x, hx⟩ := List.exists_mem_of_ne_nil pool hne
      exact absurd (hnear x hx) (not_lt.2 (hall x hx))
    · have hm : w.matchingStrategy w.heap ride.details.pickup pool = some d := by
        rw [hs]
        exact heq
      have hsort := sortedByDistance_split sqrt w.heap ride.details.pickup pre d post
        hpre hpost
      refine ⟨{ w with
        randCalls := w.randCalls + 1,
        out := w.out ++ (ride.assignDriver (some d)).2,
        heap := Function.update w.heap d ((w.heap d).setStatus DriverStatus.ON_TRIP) },
        ?_, by simp⟩
      rw [assignLoop_accept n w ride pool d hne hm (by simpa using hacc), hl, hsort,
        List.getElem?_cons_zero]
  | succ j ih =>
    intro pool w fuel hs hnd hnear hk hrej hacc hf
    obtain ⟨n, rfl⟩ : ∃ n, fuel = n + 1 := ⟨fuel - 1, by omega⟩
    have hne : pool ≠ [] := by
      rintro rfl
      simp at hk
    rcases nearest_matchDriver_cases sqrt dblMax w.heap ride.details.pickup pool with
      ⟨_, hall⟩ | ⟨pre, d, post, hl, heq, _, hpre, hpost⟩
    · obtain ⟨x, hx⟩ := List.exists_mem_of_ne_nil pool hne
      exact absurd (hnear x hx) (not_lt.2 (hall x hx))
    · have hm : w.matchingStrategy w.heap ride.details.pickup pool = some d := by
        rw [hs]
        exact heq
      have hsort := sortedByDistance_split sqrt w.heap ride.details.pickup pre d post
        hpre hpost
      have hfilter : pool.filter (fun x => x != d) = pre ++ post := by
        rw [hl]
        exact filter_ne_of_split pre d post (hl ▸ hnd)
      have hnd1 : (pre ++ post).Nodup := by
        rw [← hfilter]
        exact hnd.filter _
      have hlen : pool.length = (pre ++ post).length + 1 := by
        rw [hl]
        simp only [List.length_append, List.length_cons]
        omega
      have hsub : ∀ p ∈ pre ++ post, p ∈ pool := by
        intro p hp
        rw [← hfilter] at hp
        exact List.mem_of_mem_filter hp
      have ha : ¬ w.rand w.randCalls % 100 < 60 := by
        simpa using hrej 0 (Nat.succ_pos _)
      obtain ⟨w', hres, hc⟩ := ih (pre ++ post)
        { w with
          randCalls := w.randCalls + 1,
          out := w.out ++ [Output.rejected (w.heap d).id] }
        n hs hnd1 (fun p hp => hnear p (hsub p hp)) (by omega)
        (fun i hi => by
          have h := hrej (i + 1) (by omega)
          simpa [Nat.add_assoc, Nat.add_comm 1 i] using h)
        (by simpa [Nat.add_assoc, Nat.add_comm 1 j] using hacc)
        (by omega)
      refine ⟨w', ?_, by simp only at hc; omega⟩
      rw [assignLoop_reject n w ride pool d hne hm ha, hfilter, hres, hl, hsort,
        List.getElem?_cons_succ]

/-- In exact arithmetic: with the nearest-driver strategy active, `c` the list
`getAvailableDrivers` gives for the type of the ride and `k` below its length:
a call of `RideManager::assignDriver` that returns `true` after `k + 1`
acceptance decisions (so `k` rejections, then an acceptance) has bound the
ride to the element at index `k` of `c` stably sorted by ascending distance to
the pickup.  And when every candidate is nearer than `dblMax` and the random
source draws `k` rejections and then an acceptance, the call does return
`true` after `k + 1` decisions, given fuel above the length of `c`. -/
theorem nearest_dispatch_binds_kth_nearest (sqrt : α → α) (dblMax : α) (w : World α)
    (ride : Ride α) (k : Nat)
    (hs : w.matchingStrategy = NearestDriverStrategy.matchDriver sqrt dblMax)
    (hwf : DriverManager.WellFormed w)
    (hk : k < (DriverManager.getAvailableDrivers w ride.details.vehicleType).length) :
    (∀ fuel w' ride', RideManager.assignDriver fuel w ride = some (true, w', ride') →
        w'.randCalls = w.randCalls + k + 1 →
        ride'.driver = (sortedByDistance sqrt w.heap ride.details.pickup
          (DriverManager.getAvailableDrivers w ride.details.vehicleType))[k]?) ∧
      ((∀ p ∈ DriverManager.getAvailableDrivers w ride.details.vehicleType,
          ride.details.pickup.distanceTo sqrt (w.heap p).location < dblMax) →
        (∀ i, i < k → ¬ w.rand (w.randCalls + i) % 100 < 60) →
        w.rand (w.randCalls + k) % 100 < 60 →
        ∀ fuel, (DriverManager.getAvailableDrivers w ride.details.vehicleType).length < fuel →
          ∃ w' ride', RideManager.assignDriver fuel w ride = some (true, w', ride') ∧
            w'.randCalls = w.randCalls + k + 1 ∧
            ride'.driver = (sortedByDistance sqrt w.heap ride.details.pickup
              (DriverManager.getAvailableDrivers w ride.details.vehicleType))[k]?) := by
  have hnd := getAvailableDrivers_nodup w ride.details.vehicleType hwf
  constructor
  · intro fuel w' ride' h hcalls
    rw [assignLoop_nearest_success sqrt dblMax ride fuel k _ w w' ride' hs hnd h hcalls]
    rfl
  · intro hnear hrej hacc fuel hf
    obtain ⟨w', hres, hc⟩ := assignLoop_nearest_kth sqrt dblMax ride k _ w fuel hs hnd hnear
      hk hrej hacc hf
    exact ⟨w', _, hres, hc, rfl⟩

theorem two_lt_DBL_MAX : (2 : ℚ) < DBL_MAX := by
  unfold DBL_MAX
  norm_num

theorem demo_sortedByDistance :
    sortedByDistance Rat.sqrt demoHeap { x := 0, y := 0 } [0, 2] = [0, 2] := by
  have h := sortedByDistance_split Rat.sqrt demoHeap { x := 0, y := 0 } [] 0 [2]
    (by simp)
    (by
      intro x hx
      have hx2 : x = 2 := by simpa using hx
      rw [hx2, demo_distance_driver1, demo_distance_driver3]
      norm_num)
  rw [List.nil_append] at h
  rw [h]
  rfl

/-- Example, in exact arithmetic: the demonstration with a random source that
rejects once and then accepts: the second nearest sedan driver, `D3` at
address 2, is bound. -/
theorem nearest_dispatch_binds_kth_nearest_example :
    DriverManager.WellFormed demoWorldSecond ∧
      (∀ p ∈ DriverManager.getAvailableDrivers demoWorldSecond demoRide.details.vehicleType,
        demoRide.details.pickup.distanceTo Rat.sqrt (demoWorldSecond.heap p).location <
          DBL_MAX) ∧
      (∀ i, i < 1 → ¬ demoWorldSecond.rand (demoWorldSecond.randCalls + i) % 100 < 60) ∧
      demoWorldSecond.rand (demoWorldSecond.randCalls + 1) % 100 < 60 ∧
      (sortedByDistance Rat.sqrt demoWorldSecond.heap demoRide.details.pickup
        (DriverManager.getAvailableDrivers demoWorldSecond demoRide.details.vehicleType))[1]? =
        some 2 ∧
      ∃ w' ride', RideManager.assignDriver 3 demoWorldSecond demoRide = some (true, w', ride') ∧
        w'.randCalls = demoWorldSecond.randCalls + 1 + 1 ∧
        ride'.driver = (sortedByDistance Rat.sqrt demoWorldSecond.heap demoRide.details.pickup
          (DriverManager.getAvailableDrivers demoWorldSecond
            demoRide.details.vehicleType))[1]? :=
  have hwf : DriverManager.WellFormed demoWorldSecond :=
    wellFormed_congr (demoWorld 0) demoWorldSecond rfl (fun _ => rfl) (demoWorld_wellFormed 0)
  have hpool : DriverManager.getAvailableDrivers demoWorldSecond
      demoRide.details.vehicleType = [0, 2] := rfl
  have hnear : ∀ p ∈ DriverManager.getAvailableDrivers demoWorldSecond
      demoRide.details.vehicleType,
      demoRide.details.pickup.distanceTo Rat.sqrt (demoWorldSecond.heap p).location <
        DBL_MAX := by
    intro p hp
    rw [hpool] at hp
    have h : p = 0 ∨ p = 2 := by simpa using hp
    rcases h with rfl | rfl
    · exact lt_of_eq_of_lt demo_distance_driver1 one_lt_DBL_MAX
    · exact lt_of_eq_of_lt demo_distance_driver3 two_lt_DBL_MAX
  have hrej : ∀ i, i < 1 →
      ¬ demoWorldSecond.rand (demoWorldSecond.randCalls + i) % 100 < 60 := by
    intro i hi
    have h0 : i = 0 := by omega
    rw [h0]
    decide
  have hacc : demoWorldSecond.rand (demoWorldSecond.randCalls + 1) % 100 < 60 := by decide
  have hsorted : (sortedByDistance Rat.sqrt demoWorldSecond.heap demoRide.details.pickup
      (DriverManager.getAvailableDrivers demoWorldSecond demoRide.details.vehicleType))[1]? =
      some 2 := by
    rw [hpool]
    exact congrArg (fun l : List DriverPtr => l[1]?) demo_sortedByDistance
  ⟨hwf, hnear, hrej, hacc, hsorted,
    (nearest_dispatch_binds_kth_nearest Rat.sqrt DBL_MAX demoWorldSecond demoRide 1 rfl hwf
      (by rw [hpool]; simp)).2 hnear hrej hacc 3 (by rw [hpool]; simp)⟩

end PickOrder

/-! ## Drivers on trip and the rides that hold them (C16) -/

section Holding

variable {α : Type}

/-- Which drivers the rides hold after the ride at address `r` is replaced. -/
theorem holds_set (s : System α) (w' : World α) (r : Nat) (ride ride' : Ride α)
    (hr : s.rideObjs[r]? = some ride) (i : Nat) (p : DriverPtr) :
    System.holds { s with world := w', rideObjs := s.rideObjs.set r ride' } i p ↔
      if i = r then ride'.holdsDriver p else s.holds i p := by
  obtain ⟨hlt, _⟩ := List.getElem?_eq_some.1 hr
  unfold System.holds
  simp only [List.getElem?_set]
  by_cases h : i = r
  · subst h
    simp [hlt]
  · simp [h, Ne.symm h]

/-- Same statuses and same holdings: the invariant carries over. -/
theorem consistent_congr (s s' : System α)
    (hst : ∀ p, (s'.world.heap p).status = (s.world.heap p).status)
    (hh : ∀ i p, s'.holds i p ↔ s.holds i p) (h : s.Consistent) : s'.Consistent := by
  refine ⟨fun p => ?_, fun i j p hi hj => h.2 i j p ((hh i p).1 hi) ((hh j p).1 hj)⟩
  rw [hst, h.1 p]
  exact ⟨fun ⟨i, hi⟩ => ⟨i, (hh i p).2 hi⟩, fun ⟨i, hi⟩ => ⟨i, (hh i p).1 hi⟩⟩

/-- Binding a driver that was not on trip to a ride that held nobody keeps the
invariant. -/
theorem consistent_bind (s s' : System α) (r : Nat) (p : DriverPtr)
    (hav : (s.world.heap p).status ≠ DriverStatus.ON_TRIP)
    (hfree : ∀ q, ¬ s.holds r q)
    (hp : (s'.world.heap p).status = DriverStatus.ON_TRIP)
    (hst : ∀ q, q ≠ p → (s'.world.heap q).status = (s.world.heap q).status)
    (hh : ∀ i q, s'.holds i q ↔ if i = r then q = p else s.holds i q)
    (h : s.Consistent) : s'.Consistent := by
  have hnone : ∀ i, ¬ s.holds i p := fun i hi => hav ((h.1 p).2 ⟨i, hi⟩)
  constructor
  · intro q
    by_cases hq : q = p
    · subst hq
      refine ⟨fun _ => ⟨r, (hh r q).2 (by simp)⟩, fun _ => hp⟩
    · rw [hst q hq, h.1 q]
      constructor
      · rintro ⟨i, hi⟩
        have hir : i ≠ r := fun e => hfree q (e ▸ hi)
        exact ⟨i, (hh i q).2 (by simpa [hir] using hi)⟩
      · rintro ⟨i, hi⟩
        have h1 := (hh i q).1 hi
        by_cases hir : i = r
        · simp [hir, hq] at h1
        · exact ⟨i, by simpa [hir] using h1⟩
  · intro i j q hi hj
    have h1 := (hh i q).1 hi
    have h2 := (hh j q).1 hj
    by_cases hir : i = r
    · by_cases hjr : j = r
      · rw [hir, hjr]
      · simp only [hir, if_true] at h1
        simp only [hjr, if_false] at h2
        rw [h1] at h2
        exact absurd h2 (hnone j)
    · by_cases hjr : j = r
      · simp only [hjr, if_true] at h2
        simp only [hir, if_false] at h1
        rw [h2] at h1
        exact absurd h1 (hnone i)
      · simp only [hir, if_false] at h1
        simp only [hjr, if_false] at h2
        exact h.2 i j q h1 h2

/-- Releasing the driver of the one ride that held it keeps the invariant. -/
theorem consistent_release (s s' : System α) (r : Nat) (p : DriverPtr)
    (hheld : s.holds r p)
    (hp : (s'.world.heap p).status = DriverStatus.AVAILABLE)
    (hst : ∀ q, q ≠ p → (s'.world.heap q).status = (s.world.heap q).status)
    (hh : ∀ i q, s'.holds i q ↔ if i = r then False else s.holds i q)
    (h : s.Consistent) : s'.Consistent := by
  have hsub : ∀ i q, s'.holds i q → i ≠ r ∧ s.holds i q := by
    intro i q hi
    have h1 := (hh i q).1 hi
    by_cases hir : i = r
    · simp [hir] at h1
    · exact ⟨hir, by simpa [hir] using h1⟩
  constructor
  · intro q
    by_cases hq : q = p
    · subst hq
      rw [hp]
      constructor
      · intro hc
        cases hc
      · rintro ⟨i, hi⟩
        obtain ⟨hir, hi1⟩ := hsub i q hi
        exact absurd (h.2 i r q hi1 hheld) hir
    · rw [hst q hq, h.1 q]
      constructor
      · rintro ⟨i, hi⟩
        have hir : i ≠ r := by
          rintro rfl
          obtain ⟨ri, hri, hd, _⟩ := hi
          obtain ⟨rj, hrj, hd2, _⟩ := hheld
          rw [hri] at hrj
          cases hrj
          rw [hd] at hd2
          cases hd2
          exact hq rfl
        exact ⟨i, (hh i q).2 (by simpa [hir] using hi)⟩
      · rintro ⟨i, hi⟩
        exact ⟨i, (hsub i q hi).2⟩
  · intro i j q hi hj
    exact h.2 i j q (hsub i q hi).2 (hsub j q hj).2

theorem holds_iff_of_getElem? (s : System α) (r : Nat) (ride : Ride α)
    (hr : s.rideObjs[r]? = some ride) (p : DriverPtr) :
    s.holds r p ↔ ride.holdsDriver p := by
  unfold System.holds
  rw [hr]
  simp

theorem inSequence_getElem? (s : System α) (r : Nat) (st : RideStatus)
    (h : (s.rideObjs[r]?).map Ride.status = some st) :
    ∃ ride, s.rideObjs[r]? = some ride ∧ ride.status = st := by
  cases hget : s.rideObjs[r]? with
  | none =>
    rw [hget] at h
    cases h
  | some ride =>
    rw [hget] at h
    exact ⟨ride, rfl, by simpa using h⟩

end Holding

section WholeProcess

variable {α : Type} [LinearOrderedField α]

theorem init_consistent {β : Type} (heap : DriverHeap β)
    (strategy : DriverMatchingStrategy β) (rand : Nat → Nat) (h0 : ∀ p, (heap p).status = DriverStatus.AVAILABLE) :
    (System.init heap strategy rand).Consistent := by
  constructor
  · intro p
    constructor
    · intro h
      have h1 : (heap p).status = DriverStatus.ON_TRIP := h
      rw [h0 p] at h1
      cases h1
    · rintro ⟨i, ride, hr, _⟩
      simp [System.init] at hr
  · rintro i j p ⟨ride, hr, _⟩
    simp [System.init] at hr

/-- A call made in lifecycle order, with a strategy that picks from its pool,
keeps the invariant, and leaves the strategy in place. -/
theorem step_consistent (s s' : System α) (op : SystemOp α)
    (hsel : SelectsFromPool s.world.matchingStrategy) (hseq : op.inSequence s)
    (hstep : s.step op = some s') (h : s.Consistent) :
    s'.Consistent ∧ s'.world.matchingStrategy = s.world.matchingStrategy := by
  cases op with
  | addDriver driver =>
    simp only [System.step, Option.some.injEq] at hstep
    subst hstep
    exact ⟨consistent_congr s _ (fun _ => rfl) (fun _ _ => Iff.rfl) h, rfl⟩
  | createRide rider details =>
    simp only [System.step, Option.some.injEq] at hstep
    subst hstep
    refine ⟨consistent_congr s _ (fun _ => rfl) (fun i p => ?_) h, rfl⟩
    unfold System.holds
    simp only [RideManager.createRide]
    constructor
    · rintro ⟨ride, hr, hh⟩
      rw [List.getElem?_append] at hr
      split at hr
      · exact ⟨ride, hr, hh⟩
      · have hmem : ride ∈ [((Ride.create ("RIDE_" ++ toString (s.rideCounter + 1)) rider
            details).attachObserver RideObserver.RiderNotifier).attachObserver
            RideObserver.DriverNotifier] := List.mem_iff_getElem?.2 ⟨_, hr⟩
        rw [List.mem_singleton] at hmem
        rw [hmem] at hh
        have hd := hh.1
        simp [Ride.attachObserver, Ride.create] at hd
    · rintro ⟨ride, hr, hh⟩
      obtain ⟨hlt, _⟩ := List.getElem?_eq_some.1 hr
      exact ⟨ride, by rw [List.getElem?_append_left hlt]; exact hr, hh⟩
  | assignDriver r fuel =>
    obtain ⟨ride, hget, hstatus⟩ := inSequence_getElem? s r _ hseq
    simp only [System.step, hget] at hstep
    cases hres : RideManager.assignDriver fuel s.world ride with
    | none =>
      rw [hres] at hstep
      cases hstep
    | some res =>
      obtain ⟨b, w', ride'⟩ := res
      rw [hres] at hstep
      simp only [Option.some.injEq] at hstep
      subst hstep
      obtain ⟨_, _, h3, _, _, h6, h7⟩ := assignLoop_inv fuel s.world ride _ b w' ride' hres
      refine ⟨?_, h3⟩
      have hfree : ∀ q, ¬ s.holds r q := by
        intro q hq
        rw [holds_iff_of_getElem? s r ride hget] at hq
        rcases hq.2 with h1 | h1 <;> rw [hstatus] at h1 <;> cases h1
      cases b with
      | false =>
        obtain ⟨hr, hh⟩ := h6 rfl
        refine consistent_congr s _ (fun p => by simp only [hh]) (fun i p => ?_) h
        rw [holds_set s w' r ride ride' hget]
        by_cases hir : i = r
        · simp only [hir, if_true]
          rw [holds_iff_of_getElem? s r ride hget, hr]
        · simp only [hir, if_false]
      | true =>
        obtain ⟨p, pool1, hsub, hp, hr, hh, _, _⟩ := h7 rfl
        have hmem := (mem_getAvailableDrivers s.world ride.details.vehicleType p).1
          (hsub p (hsel _ _ _ _ hp))
        refine consistent_bind s _ r p ?_ hfree ?_ ?_ ?_ h
        · rw [hmem.2.1]
          decide
        · simp only [hh, Function.update_same]
          rfl
        · intro q hq
          simp only [hh, Function.update_noteq hq]
        · intro i q
          rw [holds_set s w' r ride ride' hget]
          by_cases hir : i = r
          · simp only [hir, if_true]
            rw [hr]
            unfold Ride.holdsDriver
            constructor
            · rintro ⟨hd, _⟩
              exact (Option.some.inj hd).symm
            · rintro rfl
              exact ⟨rfl, Or.inl rfl⟩
          · simp only [hir, if_false]
  | startRide r =>
    obtain ⟨ride, hget, hstatus⟩ := inSequence_getElem? s r _ hseq
    simp only [System.step, hget, Option.some.injEq] at hstep
    subst hstep
    refine ⟨consistent_congr s _ (fun _ => rfl) (fun i p => ?_) h, rfl⟩
    rw [holds_set s _ r ride _ hget]
    by_cases hir : i = r
    · simp only [hir, if_true]
      rw [holds_iff_of_getElem? s r ride hget]
      simp only [Ride.holdsDriver, RideManager.startRide, Ride.startRide, hstatus]
      simp
    · simp only [hir, if_false]
  | completeRide r fareCalculator =>
    obtain ⟨ride, hget, hstatus⟩ := inSequence_getElem? s r _ hseq
    simp only [System.step, hget, Option.some.injEq] at hstep
    subst hstep
    have hdone : ∀ q, ¬ (RideManager.completeRide s.world ride fareCalculator).2.holdsDriver
        q := by
      intro q hq
      have hst : (RideManager.completeRide s.world ride fareCalculator).2.status =
          RideStatus.COMPLETED := by
        unfold RideManager.completeRide
        cases hdr : ride.driver <;> simp [Ride.completeRide, hdr]
      rcases hq.2 with h1 | h1 <;> rw [hst] at h1 <;> cases h1
    cases hd : ride.driver with
    | none =>
      have hw : (RideManager.completeRide s.world ride fareCalculator).1.heap =
          s.world.heap := by
        unfold RideManager.completeRide
        simp [Ride.completeRide, hd]
      have hstrat : (RideManager.completeRide s.world ride fareCalculator).1.matchingStrategy =
          s.world.matchingStrategy := by
        unfold RideManager.completeRide
        simp [Ride.completeRide, hd]
      refine ⟨consistent_congr s _ (fun p => by simp only [hw]) (fun i p => ?_) h, hstrat⟩
      rw [holds_set s _ r ride _ hget]
      by_cases hir : i = r
      · simp only [hir, if_true]
        rw [holds_iff_of_getElem? s r ride hget]
        constructor
        · intro hq
          exact absurd hq (hdone p)
        · intro hq
          have h1 := hq.1
          rw [hd] at h1
          cases h1
      · simp only [hir, if_false]
    | some p =>
      have hc := completeRide_of_driver s.world ride fareCalculator p hd
      have hheld : s.holds r p := by
        rw [holds_iff_of_getElem? s r ride hget]
        exact ⟨hd, Or.inr hstatus⟩
      refine ⟨consistent_release s _ r p hheld ?_ ?_ ?_ h, by rw [hc]⟩
      · simp only [hc, Function.update_same]
        rfl
      · intro q hq
        simp only [hc, Function.update_noteq hq]
      · intro i q
        rw [holds_set s _ r ride _ hget]
        by_cases hir : i = r
        · simp only [hir, if_true]
          exact ⟨fun hq => hdone q hq, fun hq => hq.elim⟩
        · simp only [hir, if_false]

/-- A run made in lifecycle order from a state with the invariant ends in a
state with the invariant. -/
theorem run_consistent (ops : List (SystemOp α)) :
    ∀ (s s' : System α), SelectsFromPool s.world.matchingStrategy → s.Consistent →
      s.runsInSequence ops → s.run ops = some s' → s'.Consistent := by
  induction ops with
  | nil =>
    intro s s' _ h _ hrun
    simp only [System.run, Option.some.injEq] at hrun
    rw [← hrun]
    exact h
  | cons op ops ih =>
    intro s s' hsel h hseq hrun
    cases hstep : s.step op with
    | none =>
      simp only [System.run, hstep] at hrun
      cases hrun
    | some s1 =>
      simp only [System.run, hstep] at hrun
      simp only [System.runsInSequence, hstep] at hseq
      obtain ⟨h1, h2⟩ := step_consistent s s1 op hsel hseq.1 hstep h
      exact ih s1 s' (by rw [h2]; exact hsel) h1 hseq.2 hrun

theorem run_cons_of_step (s s1 : System α) (op : SystemOp α) (ops : List (SystemOp α))
    (h : s.step op = some s1) : s.run (op :: ops) = s1.run ops := by
  simp only [System.run, h]

theorem runsInSequence_cons_of_step (s s1 : System α) (op : SystemOp α)
    (ops : List (SystemOp α)) (h : s.step op = some s1) :
    s.runsInSequence (op :: ops) ↔ op.inSequence s ∧ s1.runsInSequence ops := by
  simp only [System.runsInSequence, h]

theorem step_assignDriver_eq (s : System α) (r fuel : Nat) (ride : Ride α)
    (res : Bool × World α × Ride α) (hget : s.rideObjs[r]? = some ride)
    (hres : RideManager.assignDriver fuel s.world ride = some res) :
    s.step (SystemOp.assignDriver r fuel) =
      some { s with world := res.2.1, rideObjs := s.rideObjs.set r res.2.2 } := by
  simp only [System.step, hget, hres]

/-- A single candidate nearer than `dblMax` is the pick of the nearest-driver
strategy. -/
theorem nearest_singleton (sqrt : α → α) (dblMax : α) (heap : DriverHeap α)
    (pickup : Location α) (p : DriverPtr)
    (h : pickup.distanceTo sqrt (heap p).location < dblMax) :
    NearestDriverStrategy.matchDriver sqrt dblMax heap pickup [p] = some p := by
  rcases nearest_matchDriver_cases sqrt dblMax heap pickup [p] with
    ⟨_, hall⟩ | ⟨pre, d, post, hl, heq, _, _, _⟩
  · exact absurd h (not_lt.2 (hall p (List.mem_singleton_self p)))
  · rcases pre with _ | ⟨a, pre⟩
    · simp only [List.nil_append, List.cons.injEq] at hl
      rw [heq, hl.1]
    · simp at hl

end WholeProcess

section ReachableRegistry

variable {α : Type} [LinearOrderedField α]

theorem update_setStatus_id {β : Type} (heap : DriverHeap β) (p q : DriverPtr)
    (st : DriverStatus) :
    (Function.update heap p ((heap p).setStatus st) q).id = (heap q).id := by
  by_cases hq : q = p
  · subst hq
    rw [Function.update_same]
    rfl
  · rw [Function.update_noteq hq]

/-- Every call on the managers leaves the driver registry well-formed. -/
theorem step_wellFormed (s s' : System α) (op : SystemOp α) (hstep : s.step op = some s')
    (h : DriverManager.WellFormed s.world) : DriverManager.WellFormed s'.world := by
  cases op with
  | addDriver driver =>
    simp only [System.step, Option.some.injEq] at hstep
    subst hstep
    exact wellFormed_addDriver s.world driver h
  | createRide rider details =>
    simp only [System.step, Option.some.injEq] at hstep
    subst hstep
    exact h
  | assignDriver r fuel =>
    cases hget : s.rideObjs[r]? with
    | none =>
      simp only [System.step, hget] at hstep
      cases hstep
    | some ride =>
      simp only [System.step, hget] at hstep
      cases hres : RideManager.assignDriver fuel s.world ride with
      | none =>
        rw [hres] at hstep
        cases hstep
      | some res =>
        obtain ⟨b, w', ride'⟩ := res
        rw [hres] at hstep
        simp only [Option.some.injEq] at hstep
        subst hstep
        obtain ⟨h1, _, _, _, _, h6, h7⟩ := assignLoop_inv fuel s.world ride _ b w' ride' hres
        refine wellFormed_congr s.world w' h1 (fun q => ?_) h
        cases b with
        | false => rw [(h6 rfl).2]
        | true =>
          obtain ⟨p, _, _, _, _, hh, _, _⟩ := h7 rfl
          rw [hh]
          exact update_setStatus_id s.world.heap p q DriverStatus.ON_TRIP
  | startRide r =>
    cases hget : s.rideObjs[r]? with
    | none =>
      simp only [System.step, hget] at hstep
      cases hstep
    | some ride =>
      simp only [System.step, hget, Option.some.injEq] at hstep
      subst hstep
      exact wellFormed_congr s.world _ rfl (fun _ => rfl) h
  | completeRide r fareCalculator =>
    cases hget : s.rideObjs[r]? with
    | none =>
      simp only [System.step, hget] at hstep
      cases hstep
    | some ride =>
      simp only [System.step, hget, Option.some.injEq] at hstep
      subst hstep
      cases hd : ride.driver with
      | none =>
        refine wellFormed_congr s.world _ ?_ (fun q => ?_) h
        · unfold RideManager.completeRide
          simp [Ride.completeRide, hd]
        · unfold RideManager.completeRide
          simp [Ride.completeRide, hd]
      | some p =>
        rw [completeRide_of_driver s.world ride fareCalculator p hd]
        exact wellFormed_congr s.world _ rfl
          (fun q => update_setStatus_id s.world.heap p q DriverStatus.AVAILABLE) h

/-- In every state the process reaches from empty registries the driver
registry is well-formed. -/
theorem run_wellFormed (heap : DriverHeap α) (strategy : DriverMatchingStrategy α)
    (rand : Nat → Nat) (ops : List (SystemOp α)) (s : System α)
    (hrun : (System.init heap strategy rand).run ops = some s) :
    DriverManager.WellFormed s.world := by
  have key : ∀ (ops : List (SystemOp α)) (s0 s1 : System α),
      DriverManager.WellFormed s0.world → s0.run ops = some s1 →
      DriverManager.WellFormed s1.world := by
    intro ops
    induction ops with
    | nil =>
      intro s0 s1 h hr
      simp only [System.run, Option.some.injEq] at hr
      rw [← hr]
      exact h
    | cons op ops ih =>
      intro s0 s1 h hr
      cases hstep : s0.step op with
      | none =>
        simp only [System.run, hstep] at hr
        cases hr
      | some s2 =>
        simp only [System.run, hstep] at hr
        exact ih s2 s1 (step_wellFormed s0 s2 op hstep h) hr
  exact key ops _ s (wellFormed_of_empty _ rfl) hrun

end ReachableRegistry

section DemoRun

theorem demo_run_prefix :
    demoSystem.run [SystemOp.addDriver 0, SystemOp.createRide (some rider1) normalRideDetails] =
      some demoSystemCreated := rfl

theorem demo_step_assign :
    demoSystemCreated.step (SystemOp.assignDriver 0 2) = some demoSystemAssigned := by
  have hpool : DriverManager.getAvailableDrivers demoSystemCreated.world
      demoRide.details.vehicleType = [0] := rfl
  have hs : demoSystemCreated.world.matchingStrategy demoSystemCreated.world.heap
      demoRide.details.pickup [0] = some 0 :=
    nearest_singleton Rat.sqrt DBL_MAX demoHeap { x := 0, y := 0 } 0
      (lt_of_eq_of_lt demo_distance_driver1 one_lt_DBL_MAX)
  have ha : demoSystemCreated.world.rand demoSystemCreated.world.randCalls % 100 < 60 := by
    decide
  have hres : RideManager.assignDriver 2 demoSystemCreated.world demoRide =
      some (true, demoSystemAssigned.world, demoRideConfirmed) := by
    unfold RideManager.assignDriver
    rw [hpool, assignLoop_accept 1 demoSystemCreated.world demoRide [0] 0 (by simp) hs ha]
    rfl
  rw [step_assignDriver_eq demoSystemCreated 0 2 demoRide _ rfl hres]
  rfl

theorem demo_run_to_assigned (ops : List (SystemOp ℚ)) :
    demoSystem.run (SystemOp.addDriver 0 ::
        SystemOp.createRide (some rider1) normalRideDetails ::
        SystemOp.assignDriver 0 2 :: ops) = demoSystemAssigned.run ops := by
  have h1 : demoSystem.step (SystemOp.addDriver 0) =
      some { demoSystem with world := DriverManager.addDriver demoSystem.world 0 } := rfl
  have h2 : System.step { demoSystem with world := DriverManager.addDriver demoSystem.world 0 }
      (SystemOp.createRide (some rider1) normalRideDetails) = some demoSystemCreated := rfl
  rw [run_cons_of_step _ _ _ _ h1, run_cons_of_step _ _ _ _ h2,
    run_cons_of_step _ _ _ _ demo_step_assign]

theorem demo_runs_in_sequence : demoSystem.runsInSequence demoOpsInOrder := by
  have h1 : demoSystem.step (SystemOp.addDriver 0) =
      some { demoSystem with world := DriverManager.addDriver demoSystem.world 0 } := rfl
  have h2 : System.step { demoSystem with world := DriverManager.addDriver demoSystem.world 0 }
      (SystemOp.createRide (some rider1) normalRideDetails) = some demoSystemCreated := rfl
  have h4 : demoSystemAssigned.step (SystemOp.startRide 0) = some demoSystemStarted := rfl
  unfold demoOpsInOrder
  rw [runsInSequence_cons_of_step _ _ _ _ h1, runsInSequence_cons_of_step _ _ _ _ h2,
    runsInSequence_cons_of_step _ _ _ _ demo_step_assign,
    runsInSequence_cons_of_step _ _ _ _ h4]
  exact ⟨trivial, trivial, rfl, rfl, trivial⟩

theorem demo_run_in_order : demoSystem.run demoOpsInOrder = some demoSystemStarted := by
  unfold demoOpsInOrder
  rw [demo_run_to_assigned]
  rfl

theorem demoHeap_available : ∀ p, (demoHeap p).status = DriverStatus.AVAILABLE := by
  intro p
  unfold demoHeap
  split_ifs <;> rfl

/-- C16, counterexample: from empty registries, register `D1`, create a ride,
assign a driver to it (`D1` accepts), complete it and then start it.  In the
state reached the one ride is `IN_PROGRESS` with `D1` as its driver, and `D1`
is `AVAILABLE`, not `ON_TRIP`. -/
theorem restarted_ride_holds_released_driver :
    (demoSystem.run demoOpsOutOfOrder).map
        (fun s => ((s.world.heap 0).status, s.rideObjs.map (fun r => (r.driver, r.status)))) =
      some (DriverStatus.AVAILABLE, [(some 0, RideStatus.IN_PROGRESS)]) := by
  unfold demoOpsOutOfOrder
  rw [demo_run_to_assigned]
  rfl

/-- C16, as amended: start from empty registries, no ride and driver objects
that are all `AVAILABLE`, as constructed, with a strategy that picks from its
pool.  In every state reached by a finite sequence of `addDriver`,
`createRide`, `RideManager::assignDriver`, `RideManager::startRide` and
`RideManager::completeRide` in which every `assignDriver` is made on a
`REQUESTED` ride, every `startRide` on a `CONFIRMED` ride and every
`completeRide` on an `IN_PROGRESS` ride, a driver is `ON_TRIP` if and only if
it is the driver of some ride that is `CONFIRMED` or `IN_PROGRESS`. -/
theorem on_trip_iff_held_in_lifecycle_order {α : Type} [LinearOrderedField α]
    (heap : DriverHeap α) (strategy : DriverMatchingStrategy α) (rand : Nat → Nat)
    (ops : List (SystemOp α)) (s : System α)
    (h0 : ∀ p, (heap p).status = DriverStatus.AVAILABLE) (hsel : SelectsFromPool strategy)
    (hseq : (System.init heap strategy rand).runsInSequence ops)
    (hrun : (System.init heap strategy rand).run ops = some s) :
    ∀ p, (s.world.heap p).status = DriverStatus.ON_TRIP ↔
      ∃ ride ∈ s.rideObjs, ride.driver = some p ∧
        (ride.status = RideStatus.CONFIRMED ∨ ride.status = RideStatus.IN_PROGRESS) := by
  have h := run_consistent ops (System.init heap strategy rand) s hsel
    (init_consistent heap strategy rand h0) hseq hrun
  intro p
  rw [h.1 p]
  constructor
  · rintro ⟨i, ride, hr, hh⟩
    exact ⟨ride, List.mem_iff_getElem?.2 ⟨i, hr⟩, hh⟩
  · rintro ⟨ride, hmem, hh⟩
    obtain ⟨i, hr⟩ := List.mem_iff_getElem?.1 hmem
    exact ⟨i, ride, hr, hh⟩

/-- Witness for C16: the demonstration, where `D1` is registered, a ride is
created, `D1` is assigned to it and the ride is started. -/
theorem on_trip_iff_held_in_lifecycle_order_witness :
    (∀ p, (demoHeap p).status = DriverStatus.AVAILABLE) ∧
      SelectsFromPool (NearestDriverStrategy.matchDriver Rat.sqrt DBL_MAX) ∧
      demoSystem.runsInSequence demoOpsInOrder ∧
      demoSystem.run demoOpsInOrder = some demoSystemStarted ∧
      ∀ p, (demoSystemStarted.world.heap p).status = DriverStatus.ON_TRIP ↔
        ∃ ride ∈ demoSystemStarted.rideObjs, ride.driver = some p ∧
          (ride.status = RideStatus.CONFIRMED ∨ ride.status = RideStatus.IN_PROGRESS) :=
  ⟨demoHeap_available, nearest_selectsFromPool Rat.sqrt DBL_MAX, demo_runs_in_sequence,
    demo_run_in_order,
    on_trip_iff_held_in_lifecycle_order demoHeap
      (NearestDriverStrategy.matchDriver Rat.sqrt DBL_MAX) (fun _ => 0) demoOpsInOrder
      demoSystemStarted demoHeap_available (nearest_selectsFromPool Rat.sqrt DBL_MAX)
      demo_runs_in_sequence demo_run_in_order⟩

/-- Witness for C18: over empty registries, `D1` is registered and then a
second driver object with the id `D1`; `D2` and `R2` were never registered. -/
theorem registration_is_idempotent_upsert_witness :
    "D2" ≠ (upsertWorld.heap 0).id ∧ (upsertWorld.heap 1).id = (upsertWorld.heap 0).id ∧
      upsertWorld.drivers = [] ∧ (∀ x ∈ ([0, 1] : List DriverPtr), (upsertWorld.heap x).id ≠ "D2") ∧
      "R2" ≠ rider1.id ∧
      DriverManager.getDriver (DriverManager.addDriver upsertWorld 0) "D1" = some 0 ∧
      DriverManager.getDriver (DriverManager.addDriver upsertWorld 0) "D2" =
        DriverManager.getDriver upsertWorld "D2" ∧
      DriverManager.getDriver
        (DriverManager.addDriver (DriverManager.addDriver upsertWorld 0) 1) "D1" = some 1 ∧
      DriverManager.getDriver (([0, 1] : List DriverPtr).foldl DriverManager.addDriver
        upsertWorld) "D2" = none ∧
      RiderManager.getRider (RiderManager.addRider upsertWorld rider1) "R2" =
        RiderManager.getRider upsertWorld "R2" :=
  have hne : "D2" ≠ (upsertWorld.heap 0).id := by decide
  have hsame : (upsertWorld.heap 1).id = (upsertWorld.heap 0).id := rfl
  have hnone : ∀ x ∈ ([0, 1] : List DriverPtr), (upsertWorld.heap x).id ≠ "D2" := by
    intro x hx
    have h : x = 0 ∨ x = 1 := by simpa using hx
    rcases h with rfl | rfl <;> decide
  have hr : "R2" ≠ rider1.id := by decide
  have h := registration_is_idempotent_upsert upsertWorld 0 1 rider1 rider1 "D2"
  have h2 := registration_is_idempotent_upsert upsertWorld 0 1 rider1 rider1 "R2"
  ⟨hne, hsame, rfl, hnone, hr, h.1, h.2.1 hne, (h.2.2.2.1 hsame).2, h.2.2.2.2.1 [0, 1] rfl hnone,
    h2.2.2.2.2.2.2.1 hr⟩

end DemoRun

/-! ## The program in binary64 arithmetic (C3, C10, C19) -/

section Binary64

theorem log_two_eq (q : ℚ) (e : ℤ) (hq : 0 < q) (h1 : (2 : ℚ) ^ e ≤ q)
    (h2 : q < (2 : ℚ) ^ (e + 1)) : Int.log 2 q = e := by
  have hb : 1 < (2 : ℕ) := by norm_num
  have h1' : ((2 : ℕ) : ℚ) ^ e ≤ q := by simpa using h1
  have h2' : q < ((2 : ℕ) : ℚ) ^ (e + 1) := by simpa using h2
  have a := (Int.zpow_le_iff_le_log hb hq).1 h1'
  have b := (Int.lt_zpow_iff_log_lt hb hq).1 h2'
  omega

theorem roundHalfEven_intCast (m : ℤ) : roundHalfEven (m : ℚ) = m := by
  simp [roundHalfEven]

theorem ofRat_zero : F64.ofRat 0 = F64.fin 0 := by
  unfold F64.ofRat
  rw [if_neg]
  · simp [roundHalfEven]
  · rw [abs_zero]
    norm_num

/-- A rational `m * 2 ^ e` with a 53-bit `m` and `e` in the exponent range is
a binary64 value: rounding leaves it alone. -/
theorem ofRat_grid (m e : ℤ) (hm1 : 2 ^ 52 ≤ |m|) (hm2 : |m| < 2 ^ 53) (he1 : -1074 ≤ e)
    (he2 : e ≤ 971) : F64.ofRat ((m : ℚ) * 2 ^ e) = F64.fin ((m : ℚ) * 2 ^ e) := by
  have hpow : (0 : ℚ) < 2 ^ e := zpow_pos (by norm_num) e
  have habs : |(m : ℚ) * 2 ^ e| = (|m| : ℤ) * 2 ^ e := by
    rw [abs_mul, abs_of_pos hpow, Int.cast_abs]
  have hlo : ((2 : ℚ) ^ (52 : ℕ)) ≤ ((|m| : ℤ) : ℚ) := by exact_mod_cast hm1
  have hhi : ((|m| : ℤ) : ℚ) ≤ (2 : ℚ) ^ (53 : ℕ) - 1 := by
    have : |m| ≤ 2 ^ 53 - 1 := by omega
    exact_mod_cast this
  have hmpos : (0 : ℚ) < ((|m| : ℤ) : ℚ) := lt_of_lt_of_le (by positivity) hlo
  have hlog : Int.log 2 |(m : ℚ) * 2 ^ e| = 52 + e := by
    rw [habs]
    refine log_two_eq _ _ (mul_pos hmpos hpow) ?_ ?_
    · have e52 : (2 : ℚ) ^ (52 : ℤ) = 2 ^ (52 : ℕ) := by norm_cast
      rw [zpow_add₀ (by norm_num), e52]
      exact mul_le_mul_of_nonneg_right hlo hpow.le
    · have e53 : (2 : ℚ) ^ (53 : ℤ) = 2 ^ (53 : ℕ) := by norm_cast
      rw [show (52 : ℤ) + e + 1 = 53 + e by ring, zpow_add₀ (by norm_num), e53]
      refine mul_lt_mul_of_pos_right ?_ hpow
      linarith
  have hulp : F64.ulpExp |(m : ℚ) * 2 ^ e| = e := by
    unfold F64.ulpExp
    rw [hlog, max_eq_left (by omega)]
    ring
  unfold F64.ofRat
  rw [if_neg, hulp, mul_div_assoc, div_self hpow.ne', mul_one, roundHalfEven_intCast]
  rw [habs, not_le]
  have h971 : (2 : ℚ) ^ e ≤ 2 ^ (971 : ℤ) := zpow_le_zpow_right₀ (by norm_num) he2
  calc ((|m| : ℤ) : ℚ) * 2 ^ e ≤ ((2 : ℚ) ^ (53 : ℕ) - 1) * 2 ^ (971 : ℤ) :=
        mul_le_mul hhi h971 hpow.le (by norm_num)
    _ < 2 ^ 1024 - 2 ^ 970 := by norm_num

theorem ofRat_of_grid (q : ℚ) (m e : ℤ) (hq : q = (m : ℚ) * 2 ^ e) (hm1 : 2 ^ 52 ≤ |m|)
    (hm2 : |m| < 2 ^ 53) (he1 : -1074 ≤ e) (he2 : e ≤ 971) : F64.ofRat q = F64.fin q := by
  rw [hq]
  exact ofRat_grid m e hm1 hm2 he1 he2

/-- A rational of magnitude `2 ^ 1024` or more rounds to an infinity. -/
theorem ofRat_overflow (q : ℚ) (h : 2 ^ 1024 ≤ |q|) :
    F64.ofRat q = F64.inf (decide (q < 0)) := by
  unfold F64.ofRat
  rw [if_pos]
  exact le_trans (by norm_num) h

theorem ofRat_zero_sub_zero : F64.ofRat (0 + -0) = F64.fin 0 := by
  simpa using ofRat_zero

theorem ofRat_zero_mul_zero : F64.ofRat (0 * 0) = F64.fin 0 := by
  simpa using ofRat_zero

/-- The distance from the origin to `(c, 0)` when `c` is representable and its
square overflows. -/
theorem distanceTo_overflow (c : ℚ) (h1 : F64.ofRat (0 + -c) = F64.fin (-c))
    (h2 : F64.ofRat (-c * -c) = F64.inf false) :
    Location.distanceTo F64.sqrt ({ x := F64.fin 0, y := F64.fin 0 } : Location F64)
      { x := F64.fin c, y := F64.fin 0 } = F64.inf false := by
  show F64.sqrt (F64.add
    (F64.mul (F64.add (F64.fin 0) (F64.neg (F64.fin c)))
      (F64.add (F64.fin 0) (F64.neg (F64.fin c))))
    (F64.mul (F64.add (F64.fin 0) (F64.neg (F64.fin 0)))
      (F64.add (F64.fin 0) (F64.neg (F64.fin 0))))) = F64.inf false
  simp only [F64.neg, F64.add, F64.mul, h1, h2, ofRat_zero_sub_zero, ofRat_zero_mul_zero,
    F64.sqrt]

theorem ofRat_neg_two_pow_600 : F64.ofRat (0 + -(2 ^ 600)) = F64.fin (-(2 ^ 600)) := by
  rw [zero_add]
  exact ofRat_of_grid _ (-2 ^ 52) 548 (by norm_num) (by norm_num) (by norm_num)
    (by norm_num) (by norm_num)

theorem ofRat_two_pow_1200 : F64.ofRat (-(2 ^ 600) * -(2 ^ 600)) = F64.inf false := by
  rw [ofRat_overflow _ (by rw [abs_of_nonneg (by positivity)]; norm_num)]
  have : ¬ (-(2 ^ 600 : ℚ) * -(2 ^ 600) < 0) := not_lt.2 (by positivity)
  simp [this]

/-- In binary64 arithmetic the distance from the origin to the point
`(2 ^ 600, 0)` is plus infinity: the square of the difference overflows. -/
theorem far_distance_overflows :
    Location.distanceTo F64.sqrt ({ x := F64.fin 0, y := F64.fin 0 } : Location F64)
      { x := F64.fin (2 ^ 600), y := F64.fin 0 } = F64.inf false :=
  distanceTo_overflow (2 ^ 600) ofRat_neg_two_pow_600 ofRat_two_pow_1200

/-- Plus infinity is below no `double`. -/
theorem not_inf_lt (x : F64) : ¬ (F64.inf false < x) := by
  show ¬ (F64.lt (F64.inf false) x = true)
  cases x <;> simp [F64.lt]

/-- A single candidate whose distance is not below the initial `minDist` is
not returned. -/
theorem nearest_singleton_none {β : Type} [Sub β] [Add β] [Pow β ℕ] [LT β]
    [DecidableRel (fun a b : β => a < b)] (sqrt : β → β) (dblMax : β) (heap : DriverHeap β)
    (pickup : Location β) (p : DriverPtr)
    (h : ¬ pickup.distanceTo sqrt (heap p).location < dblMax) :
    NearestDriverStrategy.matchDriver sqrt dblMax heap pickup [p] = none := by
  simp [NearestDriverStrategy.matchDriver, h]

theorem remote_matchDriver :
    NearestDriverStrategy.matchDriver F64.sqrt F64.maxFinite (fun _ => remoteDriver)
      { x := F64.fin 0, y := F64.fin 0 } [0] = none := by
  refine nearest_singleton_none F64.sqrt F64.maxFinite _ _ 0 ?_
  have e : Location.distanceTo F64.sqrt ({ x := F64.fin 0, y := F64.fin 0 } : Location F64)
      remoteDriver.location = F64.inf false := far_distance_overflows
  rw [e]
  exact not_inf_lt _

/-- The value `2 ^ 600` is a binary64 value: rounding leaves it as it is. -/
theorem ofRat_two_pow_600 : F64.ofRat (2 ^ 600) = F64.fin (2 ^ 600) :=
  ofRat_of_grid _ (2 ^ 52) 548 (by norm_num) (by norm_num) (by norm_num) (by norm_num)
    (by norm_num)

/-- C3, the code at the failing input: in binary64 arithmetic, with the pickup
at the origin and one candidate, a driver standing at `(2 ^ 600, 0)` (a
binary64 value), the squared coordinate difference overflows, the distance
`Location::distanceTo` returns is plus infinity, which is not below the initial
`minDist`, and `NearestDriverStrategy::matchDriver` returns no driver although
the candidate list is not empty. -/
theorem nearest_returns_null_on_overflowed_distance :
    ([0] : List DriverPtr) ≠ [] ∧
      remoteDriver.location = { x := F64.ofRat (2 ^ 600), y := F64.ofRat 0 } ∧
      Location.distanceTo F64.sqrt { x := F64.fin 0, y := F64.fin 0 } remoteDriver.location =
        F64.inf false ∧
      NearestDriverStrategy.matchDriver F64.sqrt F64.maxFinite (fun _ => remoteDriver)
        { x := F64.fin 0, y := F64.fin 0 } [0] = none := by
  refine ⟨by simp, ?_, far_distance_overflows, remote_matchDriver⟩
  rw [ofRat_two_pow_600, ofRat_zero]
  rfl

/-- C19, the code at the failing input: in binary64 arithmetic, the registry
holds one driver, an `AVAILABLE` sedan standing at `(2 ^ 600, 0)`, the ride
asks for a sedan at the origin, and the first draw of the random source would
be an acceptance.  The pool of candidates has one element, yet
`RideManager::assignDriver` returns `false` without a draw: the state and the
ride come back as they were, the ride without a driver. -/
theorem nearest_dispatch_fails_on_overflowed_distance (fuel : Nat) :
    DriverManager.getAvailableDrivers remoteWorld remoteRide.details.vehicleType = [0] ∧
      remoteWorld.rand remoteWorld.randCalls % 100 < 60 ∧
      RideManager.assignDriver (fuel + 1) remoteWorld remoteRide =
        some (false, remoteWorld, remoteRide) ∧
      remoteRide.driver = none := by
  have hpool : DriverManager.getAvailableDrivers remoteWorld remoteRide.details.vehicleType =
      [0] := rfl
  refine ⟨hpool, by decide, ?_, rfl⟩
  unfold RideManager.assignDriver
  rw [hpool]
  exact assignLoop_abstain fuel remoteWorld remoteRide [0] remote_matchDriver

end Binary64

end RideSharing
